import Mathlib

/-!
Verification of the logstuff repository's specification against a shallow
embedding of its Rust sources.

Conventions of the embedding:
* Rust `usize` parameter offsets become `Nat`; machine overflow never matters
  for the quantities involved (parameter indices, seconds).
* `format!("${}", i)` becomes `"$" ++ natRepr i` where `natRepr` is the
  decimal rendering of a natural number (the same text `{}` produces).
* `serde_json::Value` becomes the inductive `Json`; its objects are modelled
  as association lists (serde's `BTreeMap` orders keys, the embedding keeps
  insertion order; all statements proved here depend only on the key-value
  mapping, never on entry order).
* Fallible Rust code (`Result`, `.unwrap()` on a checked constructor) becomes
  `Option`/`Except`; a `none` marks a Rust panic.
* Literal `{` and `}` inside SQL string literals are written `\x7b`/`\x7d`.
-/

/-! ## Decimal digit rendering (the text `format!("{}")` produces for usize)

`natDigitsGo` is fuel-based structural recursion so that it reduces inside
`decide`/`rfl`; `natRepr n` is the usual decimal rendering of `n`. -/

def digitChar (d : Nat) : Char :=
  Char.ofNat (48 + d)

def digitVal (c : Char) : Nat :=
  c.toNat - 48

def natDigitsGo : Nat → Nat → List Char → List Char
  | 0, _, acc => acc
  | fuel + 1, n, acc =>
      if n < 10 then digitChar n :: acc
      else natDigitsGo fuel (n / 10) (digitChar (n % 10) :: acc)

def natDigits (n : Nat) : List Char :=
  natDigitsGo (n + 1) n []

def natRepr (n : Nat) : String :=
  ⟨natDigits n⟩

/-! ## Extraction of `$n` placeholders from generated SQL text

A left-to-right scanner over the characters of a SQL string: after a `$` it
reads the maximal run of decimal digits and records the number read.  This is
the reference meaning of "the `$n` placeholders occurring in the SQL text"
used by the parameter-indexing claims. -/

inductive PHState where
  | plain
  | dollar
  | num (val : Nat)
  deriving DecidableEq

def extractGo : List Char → PHState → List Nat
  | [], .plain => []
  | [], .dollar => []
  | [], .num v => [v]
  | c :: rest, .plain =>
      if c = '$' then extractGo rest .dollar else extractGo rest .plain
  | c :: rest, .dollar =>
      if c.isDigit then extractGo rest (.num (digitVal c))
      else if c = '$' then extractGo rest .dollar else extractGo rest .plain
  | c :: rest, .num v =>
      if c.isDigit then extractGo rest (.num (v * 10 + digitVal c))
      else v :: (if c = '$' then extractGo rest .dollar else extractGo rest .plain)

def extractPH (s : String) : List Nat :=
  extractGo s.data .plain

/-- The first character of `s` is not a decimal digit (or `s` is empty):
the condition under which placeholder extraction distributes over `++`. -/
def headNotDigit (s : String) : Prop :=
  ∀ c, s.data.head? = some c → c.isDigit = false

instance (s : String) : Decidable (headNotDigit s) := by
  unfold headNotDigit
  cases s.data.head? with
  | none => exact isTrue (by intro c h; cases h)
  | some c =>
      exact decidable_of_iff (c.isDigit = false)
        ⟨fun h d hd => by cases hd; exact h, fun h => h c rfl⟩

/-- The last character of `s` is neither a decimal digit nor `$` (or `s` is
empty): the other condition under which placeholder extraction distributes
over `++`, with no constraint on what follows. -/
def lastNotDigitDollar (s : String) : Prop :=
  ∀ c, s.data.getLast? = some c → c.isDigit = false ∧ c ≠ '$'

instance (s : String) : Decidable (lastNotDigitDollar s) := by
  unfold lastNotDigitDollar
  cases s.data.getLast? with
  | none => exact isTrue (by intro c h; cases h)
  | some c =>
      exact decidable_of_iff (c.isDigit = false ∧ c ≠ '$')
        ⟨fun h d hd => by cases hd; exact h, fun h => h c rfl⟩

/-! ## The counts-interval ladder

`src/stuffstream/src/interval.rs` (the same table and scan also appear in
`src/stuffstream/src/app.rs`). -/

namespace Interval

/-- The fixed interval ladder `INTERVALS`: `(seconds, interval, trunc)`. -/
def INTERVALS : List (Nat × String × String) :=
  [ (1, "1 seconds", "second"),
    (2, "2 seconds", "second"),
    (5, "5 seconds", "second"),
    (10, "10 seconds", "second"),
    (30, "30 seconds", "second"),
    (60, "1 minute", "minute"),
    (2 * 60, "2 minutes", "minute"),
    (5 * 60, "5 minutes", "minute"),
    (10 * 60, "10 minutes", "minute"),
    (30 * 60, "30 minutes", "minute"),
    (3600, "1 hour", "hour"),
    (2 * 3600, "2 hours", "hour"),
    (5 * 3600, "5 hours", "hour"),
    (10 * 3600, "10 hours", "hour"),
    (24 * 3600, "1 day", "day"),
    (2 * 24 * 3600, "2 days", "day"),
    (7 * 24 * 3600, "1 week", "week"),
    (2 * 7 * 24 * 3600, "2 week", "week"),
    (30 * 24 * 3600, "1 month", "month"),
    (2 * 30 * 24 * 3600, "2 months", "month"),
    (3 * 30 * 24 * 3600, "3 months", "month"),
    (4 * 30 * 24 * 3600, "4 months", "month"),
    (6 * 30 * 24 * 3600, "6 months", "month"),
    (365 * 24 * 3600, "1 year", "year"),
    (2 * 365 * 24 * 3600, "2 years", "year"),
    (5 * 365 * 24 * 3600, "5 years", "year"),
    (10 * 365 * 24 * 3600, "10 years", "year"),
    (20 * 365 * 24 * 3600, "20 years", "year"),
    (50 * 365 * 24 * 3600, "50 years", "year") ]

structure CountsInterval where
  seconds : Nat
  truncate : String
  interval : String
  deriving DecidableEq

/-- The 100-year fallback returned after the `for` loop finds no match. -/
def fallback : CountsInterval :=
  { seconds := 100 * 365 * 24 * 3600, truncate := "year", interval := "100 years" }

/-- The `for (seconds, interval, trunc) in INTERVALS` loop body of
`impl From<Duration> for CountsInterval`. -/
def scanIntervals (duration : Nat) : List (Nat × String × String) → CountsInterval
  | [] => fallback
  | (seconds, interval, trunc) :: rest =>
      if duration / seconds < 100 then
        { seconds := seconds, truncate := trunc, interval := interval }
      else
        scanIntervals duration rest

/-- `CountsInterval::from(duration)`: `duration.whole_seconds().unsigned_abs()`
is the absolute number of whole seconds of the argument, modelled as `Int.natAbs`
of the duration in seconds. -/
def countsIntervalFrom (durationSecs : Int) : CountsInterval :=
  scanIntervals durationSecs.natAbs INTERVALS

end Interval

/-! ## The `serde_json::Value` model -/

inductive Json where
  | null
  | bool (b : Bool)
  | num (n : Int)
  | fnum (bits : Nat)
  | str (s : String)
  | arr (elems : List Json)
  | obj (entries : List (String × Json))

namespace Json

/-- `Value::get(key)` on an object: the value stored under `k`. -/
def getKey : Json → String → Option Json
  | .obj entries, k => lookupEntry entries k
  | _, _ => none
where lookupEntry : List (String × Json) → String → Option Json
  | [], _ => none
  | (k', v) :: rest, k => if k = k' then some v else lookupEntry rest k

def hasKey (j : Json) (k : String) : Bool :=
  (j.getKey k).isSome

/-- Whether a value is a JSON object (`Value::is_object`). -/
def isObj : Json → Bool
  | .obj _ => true
  | _ => false

/-- `value[key] = v` (serde's `IndexMut` for `&str`): replace the entry if the
key exists, insert it otherwise; on `Null` the target first becomes an empty
object.  serde panics on any other non-object target; that arm is modelled as
the identity and is unreachable for the object documents this code builds
(every statement proved below evaluates `setKey` on objects only). -/
def setKey : Json → String → Json → Json
  | .obj entries, k, v => .obj (setEntry entries k v)
  | .null, k, v => .obj [(k, v)]
  | j, _, _ => j
where setEntry : List (String × Json) → String → Json → List (String × Json)
  | [], k, v => [(k, v)]
  | (k', v') :: rest, k, v =>
      if k = k' then (k, v) :: rest else (k', v') :: setEntry rest k v

end Json

/-! ## The query compiler of `src/logstuff/src/query.rs`

The pest grammar file `query.pest` lowers the operator tokens to the `Rule`
variants matched in `walk_tree`; the `Value` and `Expression` enums and the
functions `format_operand`, `walk_tree` and `parse_query` are embedded
verbatim.  Parsing itself (pest) is kept abstract: `parseQuery` takes the
parser as a function argument. -/

namespace LQuery

inductive Value where
  | identifier (s : String)
  | scalar (s : String)
  | list (l : List String)

/-- The comparison-operator rules of the pest grammar that `walk_tree`
matches on. -/
inductive CompOp where
  | eq
  | neq
  | gte
  | gt
  | lte
  | lt
  | opIn
  | opNotIn
  | like
  | notLike
  deriving DecidableEq

inductive Expression where
  | compare (lhs : Value) (op : CompOp) (rhs : Value)
  | and (lhs rhs : Expression)
  | or (lhs rhs : Expression)
  | fts (s : String)

/-- `fn format_operand(operand, param_offset, primitive)`. -/
def formatOperand (operand : Value) (paramOffset : Nat) (primitive : Bool) :
    String × List Json :=
  match operand with
  | .identifier id =>
      let expr := if primitive then
          "doc ->> ($" ++ natRepr paramOffset ++ "::jsonb #>> '\x7b\x7d')"
        else
          "doc -> ($" ++ natRepr paramOffset ++ "::jsonb #>> '\x7b\x7d')"
      (expr, [Json.str id])
  | .scalar value =>
      let expr := if primitive then
          "$" ++ natRepr paramOffset ++ "::jsonb #>> '\x7b\x7d'"
        else
          "$" ++ natRepr paramOffset
      (expr, [Json.str value])
  | .list l =>
      let expr := if primitive then
          "(select jsonb_array_elements($" ++ natRepr paramOffset ++ "::jsonb) #>> '\x7b\x7d')"
        else
          "$" ++ natRepr paramOffset ++ "::jsonb"
      (expr, [Json.arr (l.map Json.str)])

/-- The `negate` flag set in `walk_tree`'s operator match. -/
def negateOf : CompOp → Bool
  | .neq | .opNotIn | .notLike => true
  | _ => false

/-- The `primitive_operands` flag set in `walk_tree`'s operator match. -/
def primitiveOf : CompOp → Bool
  | .opIn | .opNotIn | .like | .notLike => true
  | _ => false

/-- The SQL operator symbol chosen in `walk_tree`'s operator match. -/
def symbolOf : CompOp → String
  | .eq | .neq => "@>"
  | .gte => ">="
  | .gt => ">"
  | .lte => "<="
  | .lt => "<"
  | .opIn | .opNotIn => "IN"
  | .like | .notLike => "LIKE"

/-- `fn walk_tree(expr, param_offset)` (it only ever returns `Ok`, so the
`Result` wrapper is dropped). -/
def walkTree : Expression → Nat → String × List Json
  | .and lhs rhs, paramOffset =>
      let (leftExpr, leftParams) := walkTree lhs paramOffset
      let (rightExpr, rightParams) := walkTree rhs (paramOffset + leftParams.length)
      ("(" ++ leftExpr ++ " AND " ++ rightExpr ++ ")", leftParams ++ rightParams)
  | .or lhs rhs, paramOffset =>
      let (leftExpr, leftParams) := walkTree lhs paramOffset
      let (rightExpr, rightParams) := walkTree rhs (paramOffset + leftParams.length)
      ("(" ++ leftExpr ++ " OR " ++ rightExpr ++ ")", leftParams ++ rightParams)
  | .compare lhs op rhs, paramOffset =>
      let negate := negateOf op
      let primitiveOperands := primitiveOf op
      let opSym := symbolOf op
      let (leftExpr, leftParams) := formatOperand lhs paramOffset primitiveOperands
      let (rightExpr, rightParams) :=
        formatOperand rhs (paramOffset + leftParams.length) primitiveOperands
      let expr := if negate then
          "NOT " ++ leftExpr ++ " " ++ opSym ++ " " ++ rightExpr
        else
          leftExpr ++ " " ++ opSym ++ " " ++ rightExpr
      (expr, leftParams ++ rightParams)
  | .fts value, paramOffset =>
      ("search @@ websearch_to_tsquery($" ++ natRepr paramOffset ++ "::jsonb #>> '\x7b\x7d')",
        [Json.str value])

/-- `fn parse_query(query)`: the pest parse and precedence climb are the
abstract `parse` argument; an empty query short-circuits to `1 = 1`. -/
def parseQuery (parse : String → Except Nat Expression) (query : String) :
    Except Nat (String × List Json) :=
  if ¬ query.isEmpty then
    (parse query).map (fun ast => walkTree ast 1)
  else
    .ok ("1 = 1", [])

end LQuery

/-! ## The query compiler of `src/query/src/ast.rs` and `src/query/src/lib.rs`

The lalrpop grammar that builds `Expression` values is not part of the staged
sources; `ExpressionParser::to_sql` is embedded with the parser abstract.
`f64` payloads are carried as uninterpreted bit patterns (`Json.fnum`): no
claim below inspects them. -/

namespace QAst

inductive Scalar where
  | int (n : Int)
  | float (bits : Nat)
  | text (s : String)

/-- `Scalar::as_json`. -/
def Scalar.asJson : Scalar → Json
  | .int n => .num n
  | .float bits => .fnum bits
  | .text s => .str s

inductive Value where
  | scalar (s : Scalar)
  | list (l : List Scalar)

inductive Operator where
  | eq
  | lt
  | le
  | gt
  | ge
  | like
  | opIn
  deriving DecidableEq

inductive WantedOperandType where
  | json
  | numeric
  | string
  deriving DecidableEq

/-- `Operator::sql_symbol`. -/
def Operator.sqlSymbol : Operator → String
  | .eq => "@>"
  | .gt => ">"
  | .ge => ">="
  | .lt => "<"
  | .le => "<="
  | .like => "LIKE"
  | .opIn => "IN"

/-- `Operator::wanted_operands`. -/
def Operator.wantedOperands : Operator → WantedOperandType
  | .eq => .json
  | .like | .opIn => .string
  | _ => .numeric

/-- `Identifier::string_getter`. -/
def stringGetter (id : String) (paramOffset : Nat) : String × List Json :=
  ("doc ->> ($" ++ natRepr paramOffset ++ "::jsonb #>> '\x7b\x7d')", [Json.str id])

/-- `Identifier::json_getter`. -/
def jsonGetter (id : String) (paramOffset : Nat) : String × List Json :=
  ("doc -> ($" ++ natRepr paramOffset ++ "::jsonb #>> '\x7b\x7d')", [Json.str id])

/-- `Identifier::numeric_getter`. -/
def numericGetter (id : String) (paramOffset : Nat) : String × List Json :=
  let (expr, params) := stringGetter id paramOffset
  ("to_number_or_null(" ++ expr ++ ")", params)

/-- `Value::to_sql_primitive_param`. -/
def Value.toSqlPrimitiveParam : Value → Nat → String × List Json
  | .scalar value, paramOffset =>
      ("$" ++ natRepr paramOffset ++ "::jsonb #>> '\x7b\x7d'", [value.asJson])
  | .list l, paramOffset =>
      ("(select jsonb_array_elements($" ++ natRepr paramOffset ++ "::jsonb) #>> '\x7b\x7d')",
        [Json.arr (l.map Scalar.asJson)])

/-- `Value::to_sql_json_param`. -/
def Value.toSqlJsonParam : Value → Nat → String × List Json
  | .scalar value, paramOffset => ("$" ++ natRepr paramOffset, [value.asJson])
  | .list l, paramOffset =>
      ("$" ++ natRepr paramOffset ++ "::jsonb", [Json.arr (l.map Scalar.asJson)])

/-- `Value::to_sql_numeric_param`: the `List` arm is `unreachable!()` in the
source, modelled as `none` (a panic). -/
def Value.toSqlNumericParam : Value → Nat → Option (String × List Json)
  | .scalar value, paramOffset =>
      some (("($" ++ natRepr paramOffset ++ "::jsonb #>> '\x7b\x7d')::numeric", [value.asJson]))
  | .list _, _ => none

inductive Expression where
  | compare (id : String) (op : Operator) (value : Value)
  | and (lhs rhs : Expression)
  | or (lhs rhs : Expression)
  | not (e : Expression)
  | fullTextSearch (s : String)

/-- `Expression::to_sql_query(param_offset)`; `none` marks the one panic path
(a list value under a numeric operator). -/
def toSqlQuery : Expression → Nat → Option (String × List Json)
  | .and lhs rhs, paramOffset =>
      match toSqlQuery lhs paramOffset with
      | none => none
      | some (leftExpr, leftParams) =>
          match toSqlQuery rhs (paramOffset + leftParams.length) with
          | none => none
          | some (rightExpr, rightParams) =>
              some (("(" ++ leftExpr ++ " AND " ++ rightExpr ++ ")",
                leftParams ++ rightParams))
  | .or lhs rhs, paramOffset =>
      match toSqlQuery lhs paramOffset with
      | none => none
      | some (leftExpr, leftParams) =>
          match toSqlQuery rhs (paramOffset + leftParams.length) with
          | none => none
          | some (rightExpr, rightParams) =>
              some (("(" ++ leftExpr ++ " OR " ++ rightExpr ++ ")",
                leftParams ++ rightParams))
  | .not e, paramOffset =>
      match toSqlQuery e paramOffset with
      | none => none
      | some (expr, params) => some (("(NOT " ++ expr ++ ")", params))
  | .fullTextSearch s, paramOffset =>
      some (("search @@ websearch_to_tsquery($" ++ natRepr paramOffset ++ "::jsonb #>> '\x7b\x7d')",
        [Json.str s]))
  | .compare id op value, paramOffset =>
      match op.wantedOperands with
      | .string =>
          let (idExpr, idParams) := stringGetter id paramOffset
          let (valueExpr, valueParams) := value.toSqlPrimitiveParam (paramOffset + idParams.length)
          some ((idExpr ++ " " ++ op.sqlSymbol ++ " " ++ valueExpr, idParams ++ valueParams))
      | .json =>
          let (idExpr, idParams) := jsonGetter id paramOffset
          let (valueExpr, valueParams) := value.toSqlJsonParam (paramOffset + idParams.length)
          some ((idExpr ++ " " ++ op.sqlSymbol ++ " " ++ valueExpr, idParams ++ valueParams))
      | .numeric =>
          let (idExpr, idParams) := numericGetter id paramOffset
          match value.toSqlNumericParam (paramOffset + idParams.length) with
          | none => none
          | some (valueExpr, valueParams) =>
              some ((idExpr ++ " " ++ op.sqlSymbol ++ " " ++ valueExpr,
                idParams ++ valueParams))

/-- `ExpressionParser::to_sql(text, param_offset)` of `src/query/src/lib.rs`;
`parse` stands for the lalrpop-generated parser, the outer `none` for the
panic path inside `to_sql_query`. -/
def toSql (parse : String → Except Nat Expression) (text : String) (paramOffset : Nat) :
    Option (Except Nat (String × List Json)) :=
  if text.isEmpty then
    some (.ok ("1 = 1", []))
  else
    match parse text with
    | .error e => some (.error e)
    | .ok tree => (toSqlQuery tree paramOffset).map .ok

end QAst

/-! ## The event-endpoint response stream of `src/stuffstream/src/events.rs`

`EventsResponse::streams` chains literal one-chunk streams with the four
sub-query result streams; a stream is modelled as the list of its chunks, in
emission order, and `stream::once`/`Stream::chain` as a one-element list and
list append. -/

namespace Events

/-- The chunk sequence built at the end of `EventsResponse::streams`. -/
def streamsChunks (e f c m : List String) : List String :=
  ["\x7b\"events\":"] ++ e ++
    [", \"fields\":"] ++ f ++
    [", \"counts\":"] ++ c ++
    [", \"metadata\":"] ++ m ++
    ["\x7d"]

/-- The bytes a chunk sequence puts on the wire: each chunk's characters in
order. -/
def emitted (chunks : List String) : List Char :=
  (chunks.map String.data).flatten

end Events

/-! ## The compound event query of `src/stuffstream/src/app.rs`

`fetch_events` computes three parameter ids past the compiled expression's
parameters, formats the four sub-query strings and binds
`query_params ++ [limit_events, start, end]`.  The parameter values are
heterogeneous trait objects (`&dyn ToSql`); the bind list is modelled over an
arbitrary element type. -/

namespace StreamApp

/-- `let event_limit_param_id = query_params.len() + 1`. -/
def eventLimitParamId (queryParamCount : Nat) : Nat := queryParamCount + 1

/-- `let start_tstamp_param_id = query_params.len() + 2`. -/
def startTstampParamId (queryParamCount : Nat) : Nat := queryParamCount + 2

/-- `let end_tstamp_param_id = query_params.len() + 3`. -/
def endTstampParamId (queryParamCount : Nat) : Nat := queryParamCount + 3

/-- The `events_query` format string of `fetch_events`, with the three
parameter ids filled in. -/
def eventsQuerySql (table expr : String) (queryParamCount : Nat) : String :=
  "\n            select jsonb_build_object('timestamp', tstamp, 'id', id, 'source', doc) as doc\n            from " ++
    table ++
    "\n            where " ++
    expr ++
    "\n            and tstamp between $" ++
    natRepr (startTstampParamId queryParamCount) ++
    " and $" ++
    natRepr (endTstampParamId queryParamCount) ++
    "\n            order by tstamp desc\n            limit $" ++
    natRepr (eventLimitParamId queryParamCount) ++
    "\n        "

/-- The bind list passed to `query_raw`:
`query_params.iter() .chain(once(&params.limit_events)) .chain(once(&params.start)) .chain(once(&params.end)) .collect()`. -/
def fetchEventsBoundParams {α : Type} (queryParams : List α) (limitEvents start endv : α) :
    List α :=
  queryParams ++ [limitEvents] ++ [start] ++ [endv]

end StreamApp

/-! ## The event model of `src/logstuff/src/event.rs` -/

namespace EventModel

inductive SyslogSeverity where
  | emergency | alert | critical | error | warning | notice | info | debug
  deriving DecidableEq

/-- `Display for SyslogSeverity`. -/
def severityText : SyslogSeverity → String
  | .emergency => "emergency"
  | .alert => "alert"
  | .critical => "critical"
  | .error => "error"
  | .warning => "warning"
  | .notice => "notice"
  | .info => "info"
  | .debug => "debug"

inductive SyslogFacility where
  | kern | user | mail | daemon | auth | syslog | lpr | news
  | uucp | cron | authpriv | ftp | ntp | security | console | solarisCron
  | local0 | local1 | local2 | local3 | local4 | local5 | local6 | local7
  deriving DecidableEq

/-- `Display for SyslogFacility`. -/
def facilityText : SyslogFacility → String
  | .kern => "kern"
  | .user => "user"
  | .mail => "mail"
  | .daemon => "daemon"
  | .auth => "auth"
  | .syslog => "syslog"
  | .lpr => "lpr"
  | .news => "news"
  | .uucp => "uucp"
  | .cron => "cron"
  | .authpriv => "authpriv"
  | .ftp => "ftp"
  | .ntp => "ntp"
  | .security => "security"
  | .console => "console"
  | .solarisCron => "solariscron"
  | .local0 => "local0"
  | .local1 => "local1"
  | .local2 => "local2"
  | .local3 => "local3"
  | .local4 => "local4"
  | .local5 => "local5"
  | .local6 => "local6"
  | .local7 => "local7"

/-- Timestamps: the claims below never inspect a timestamp's serialized text,
so `OffsetDateTime` values inside events are carried as an opaque count of
non-leap seconds since the epoch, and their serde serialization into the
document as a rendered string. -/
def timeJson (epochSecs : Int) : Json :=
  Json.str ("@" ++ natRepr epochSecs.natAbs)

/-- The raw rsyslogd record (`RsyslogdEvent`); `message_variables` is the
`$!` field. -/
structure RsyslogdEvent where
  msg : String
  rawmsg : String
  timereported : Int
  timegenerated : Int
  hostname : String
  syslogtag : String
  inputname : String
  fromhost : String
  fromhost_ip : String
  pri : String
  syslogseverity : SyslogSeverity
  syslogfacility : SyslogFacility
  programname : String
  protocol_version : String
  structured_data : String
  app_name : String
  procid : Option String
  msgid : Option String
  uuid : Option String
  message_variables : Option Json

structure Event where
  timestamp : Int
  doc : Json

/-- serde's serialization of an `Option<String>` inside `json!`: `None`
becomes JSON `null`. -/
def optStrJson : Option String → Json
  | none => .null
  | some s => .str s

/- `fn flatten_value(value, target, prefix, separator)`: objects recurse with
extended prefixes, everything else is assigned at the current prefix.
(`flattenEntries` is the `map.iter().for_each` loop.) -/
mutual

def flattenValue : Json → Json → String → String → Json
  | .obj entries, target, pfx, separator => flattenEntries entries target pfx separator
  | .null, target, pfx, _ => target.setKey pfx .null
  | .bool b, target, pfx, _ => target.setKey pfx (.bool b)
  | .num m, target, pfx, _ => target.setKey pfx (.num m)
  | .fnum b, target, pfx, _ => target.setKey pfx (.fnum b)
  | .str s, target, pfx, _ => target.setKey pfx (.str s)
  | .arr l, target, pfx, _ => target.setKey pfx (.arr l)

def flattenEntries : List (String × Json) → Json → String → String → Json
  | [], target, _, _ => target
  | (key, value) :: rest, target, pfx, separator =>
      let subprefix := if pfx.isEmpty then key else pfx ++ separator ++ key
      flattenEntries rest (flattenValue value target subprefix separator) pfx separator

end

/-- The JSON text serde's `Display for Value` prints for a string (used by
`format!("{}", value)` inside `flatten`): quoted, with the escapes serde
emits. -/
def escapeJsonString (s : String) : String :=
  "\"" ++ ⟨s.data.flatMap escapeChar⟩ ++ "\""
where escapeChar (c : Char) : List Char :=
  if c = '"' then ['\\', '"']
  else if c = '\\' then ['\\', '\\']
  else if c = '\n' then ['\\', 'n']
  else if c = '\r' then ['\\', 'r']
  else if c = '\t' then ['\\', 't']
  else if c.toNat = 8 then ['\\', 'b']
  else if c.toNat = 12 then ['\\', 'f']
  else if c.toNat < 32 then
    '\\' :: 'u' :: '0' :: '0' :: digitChar (c.toNat / 16) :: [digitChar (c.toNat % 16)]
  else [c]

/-- serde's `Display for Value` (compact JSON text), used by
`format!("{}={}", pair.0, pair.1)` in `flatten` and `search_string`.
`fnum` payloads are uninterpreted `f64` bit patterns; their decimal rendering
is not modelled (floating point) and no claim below inspects it. -/
def jsonText : Json → String
  | .null => "null"
  | .bool true => "true"
  | .bool false => "false"
  | .num n => toString n
  | .fnum _ => ""
  | .str s => escapeJsonString s
  | .arr elems => "[" ++ jsonTextList elems ++ "]"
  | .obj entries => "\x7b" ++ jsonTextEntries entries ++ "\x7d"
where
  jsonTextList : List Json → String
    | [] => ""
    | [v] => jsonText v
    | v :: rest => jsonText v ++ "," ++ jsonTextList rest
  jsonTextEntries : List (String × Json) → String
    | [] => ""
    | [(k, v)] => escapeJsonString k ++ ":" ++ jsonText v
    | (k, v) :: rest => escapeJsonString k ++ ":" ++ jsonText v ++ "," ++ jsonTextEntries rest

/-- `fn flatten(value)`: flatten into an empty object, then join `k=v` pairs
with single spaces.  (serde's map iterates in key order; the embedding joins
in entry order, which no claim below observes.) -/
def flatten (value : Json) : String :=
  let unnested := flattenValue value (Json.obj []) "" "."
  match unnested with
  | .obj entries => String.intercalate " " (entries.map (fun p => p.1 ++ "=" ++ jsonText p.2))
  | _ => ""

/-- `Event::get_printable(index)`. -/
def getPrintable (e : Event) (index : String) : Option String :=
  match e.doc.getKey index with
  | some value =>
      match value with
      | .str s => some s
      | .arr elems => some (flatten (.arr elems))
      | .bool true => some "true"
      | .bool false => some "false"
      | .null => some "null"
      | .num n => some (toString n)
      | .fnum _ => some ""
      | .obj entries => some (flatten (.obj entries))
  | none => none

/-- The `json!` literal at the top of `impl From<RsyslogdEvent> for Event`
(serde stores it as a key map; the embedding keeps the literal's entry
order).  `rawmsg`, `pri` and `structured_data` are deliberately left out by
the source. -/
def rsyslogBaseDoc (event : RsyslogdEvent) : Json :=
  .obj
    [ ("msg", .str event.msg),
      ("timereported", timeJson event.timereported),
      ("timegenerated", timeJson event.timegenerated),
      ("hostname", .str event.hostname),
      ("inputname", .str event.inputname),
      ("syslogtag", .str event.syslogtag),
      ("fromhost", .str event.fromhost),
      ("fromhost_ip", .str event.fromhost_ip),
      ("syslogfacility", .str (facilityText event.syslogfacility)),
      ("syslogseverity", .str (severityText event.syslogseverity)),
      ("programname", .str event.programname),
      ("procid", optStrJson event.procid),
      ("protocol_version", .str event.protocol_version),
      ("app_name", .str event.app_name) ]

/-- `impl From<RsyslogdEvent> for Event`: the `json!` document, then the
optional `vars` flattening, then the conditional `msgid` and `uuid`
insertions. -/
def eventFromRsyslogd (event : RsyslogdEvent) : Event :=
  let doc : Json := rsyslogBaseDoc event
  let doc := match event.message_variables with
    | some vars => flattenValue vars doc "vars" "."
    | none => doc
  let doc := match event.msgid with
    | some msgid => doc.setKey "msgid" (.str msgid)
    | none => doc
  let doc := match event.uuid with
    | some uuid => doc.setKey "uuid" (.str uuid)
    | none => doc
  { timestamp := event.timereported, doc := doc }

end EventModel

/-! ## The ingest pipeline of `src/stuffimport/src/app.rs` -/

namespace ImportApp

open EventModel

/-- The `use_vars_msg` clone-and-swap at the top of `App::insert_event`: the
event actually handed to `insert_single_shot`.  The two `.unwrap()` calls are
`Option.bind`s; the original `event` is untouched (the source clones). -/
def insertedEvent (useVarsMsg : Bool) (event : Event) : Option Event :=
  if useVarsMsg ∧ (getPrintable event "vars.msg").isSome then do
    let oldMsg ← getPrintable event "msg"
    let newMsg ← getPrintable event "vars.msg"
    let doc := event.doc.setKey "msg" (.str newMsg)
    let doc := doc.setKey "vars.msg" (.str oldMsg)
    some { event with doc := doc }
  else
    some event

/-- `App::new` writes one readiness acknowledgment to stdout before the read
loop starts (`writeln!(io::stdout(), "OK")`). -/
def appNewStdout : List String := ["OK\n"]

/-- `App::handle_event(line)`: `parse` stands for
`serde_json::from_str::<RsyslogdEvent>`, `insert` for `App::insert_event`
(its `Err` aborts `run_once` via `?`).  The result carries the strings the
call writes to stdout; a parse failure is logged and produces `Ok` (the loop
continues). -/
def handleEvent (parse : String → Except String RsyslogdEvent)
    (insert : Event → Except String Unit) (line : String) :
    Except String (List String) :=
  match parse line with
  | .ok rsyslogEvent => do
      let _ ← insert (eventFromRsyslogd rsyslogEvent)
      .ok ["OK\n"]
  | .error _ => .ok []

/-- The `run_once` read loop over a whole input: one `handle_event` per
non-empty trimmed line, stopping at EOF (the end of the list) or at the first
fatal error.  Returns everything written to stdout after startup. -/
def runLoop (parse : String → Except String RsyslogdEvent)
    (insert : Event → Except String Unit) : List String → Except String (List String)
  | [] => .ok []
  | line :: rest => do
      let out ← if ¬ line.isEmpty then handleEvent parse insert line else .ok []
      let outs ← runLoop parse insert rest
      .ok (out ++ outs)

/-- The process's whole stdout: the startup acknowledgment of `App::new`
followed by the read loop's output. -/
def appStdout (parse : String → Except String RsyslogdEvent)
    (insert : Event → Except String Unit) (lines : List String) :
    Except String (List String) :=
  (runLoop parse insert lines).map (fun outs => appNewStdout ++ outs)

end ImportApp

/-! ## The time-bucket bounds of `src/stuffimport/src/partition.rs`

The `time` crate's `OffsetDateTime` is modelled as a proleptic-Gregorian
calendar date plus a time of day (all timestamps this code touches are
`assume_utc`; sub-second precision never reaches a bound computation because
`lower_bound` rebuilds the time of day from `from_hms`).  `Date` construction
is checked exactly as `Date::from_calendar_date` /
`Date::from_iso_week_date` check it; an `.unwrap()` on their result is an
`Option.bind`, so `none` marks a Rust panic. -/

namespace Partition

inductive Month where
  | january | february | march | april | may | june
  | july | august | september | october | november | december
  deriving DecidableEq

/-- `Month::next`. -/
def Month.next : Month → Month
  | .january => .february
  | .february => .march
  | .march => .april
  | .april => .may
  | .may => .june
  | .june => .july
  | .july => .august
  | .august => .september
  | .september => .october
  | .october => .november
  | .november => .december
  | .december => .january

def Month.toNat : Month → Nat
  | .january => 1
  | .february => 2
  | .march => 3
  | .april => 4
  | .may => 5
  | .june => 6
  | .july => 7
  | .august => 8
  | .september => 9
  | .october => 10
  | .november => 11
  | .december => 12

def monthOfNat (n : Nat) : Month :=
  match n with
  | 1 => .january
  | 2 => .february
  | 3 => .march
  | 4 => .april
  | 5 => .may
  | 6 => .june
  | 7 => .july
  | 8 => .august
  | 9 => .september
  | 10 => .october
  | 11 => .november
  | _ => .december

/-- Proleptic-Gregorian leap years (the rule the `time` crate applies). -/
def isLeap (year : Int) : Bool :=
  year % 4 = 0 ∧ (year % 100 ≠ 0 ∨ year % 400 = 0)

def daysInMonth (year : Int) (month : Month) : Nat :=
  match month with
  | .january | .march | .may | .july | .august | .october | .december => 31
  | .april | .june | .september | .november => 30
  | .february => if isLeap year then 29 else 28

structure Date where
  year : Int
  month : Month
  day : Nat
  deriving DecidableEq

structure Time where
  hour : Nat
  minute : Nat
  second : Nat
  deriving DecidableEq

structure DateTime where
  date : Date
  time : Time
  deriving DecidableEq

/-- `Date::from_calendar_date(year, month, day)`: `Err` (→ `none`) when the
day does not exist in that month. -/
def fromCalendarDate (year : Int) (month : Month) (day : Nat) : Option Date :=
  if 1 ≤ day ∧ day ≤ daysInMonth year month then some ⟨year, month, day⟩ else none

/-- `Time::from_hms`. -/
def fromHms (hour minute second : Nat) : Option Time :=
  if hour ≤ 23 ∧ minute ≤ 59 ∧ second ≤ 59 then some ⟨hour, minute, second⟩ else none

/-- Days since 1970-01-01 of a calendar date (the standard civil/Gregorian
conversion; the `time` crate stores dates as year plus ordinal day, which is
equivalent). -/
def Date.toDays (d : Date) : Int :=
  let m := d.month.toNat
  let y : Int := if m ≤ 2 then d.year - 1 else d.year
  let era : Int := Int.ediv y 400
  let yoe : Nat := (y - era * 400).toNat
  let doy : Nat := (153 * (if m > 2 then m - 3 else m + 9) + 2) / 5 + (d.day - 1)
  let doe : Nat := yoe * 365 + yoe / 4 - yoe / 100 + doy
  era * 146097 + (doe : Int) - 719468

/-- The date lying `z` days after 1970-01-01 (inverse of `Date.toDays`). -/
def dateFromDays (z : Int) : Date :=
  let z' := z + 719468
  let era : Int := Int.ediv z' 146097
  let doe : Nat := (z' - era * 146097).toNat
  let yoe : Nat := (doe - doe / 1460 + doe / 36524 - doe / 146096) / 365
  let doy : Nat := doe - (365 * yoe + yoe / 4 - yoe / 100)
  let mp : Nat := (5 * doy + 2) / 153
  let day : Nat := doy - (153 * mp + 2) / 5 + 1
  let m : Nat := if mp < 10 then mp + 3 else mp - 9
  let year : Int := (yoe : Int) + era * 400 + (if m ≤ 2 then 1 else 0)
  ⟨year, monthOfNat m, day⟩

def DateTime.toEpochSecs (t : DateTime) : Int :=
  86400 * t.date.toDays + 3600 * t.time.hour + 60 * t.time.minute + t.time.second

def ofEpochSecs (n : Int) : DateTime :=
  let days := Int.ediv n 86400
  let rem : Nat := (Int.emod n 86400).toNat
  ⟨dateFromDays days, ⟨rem / 3600, rem % 3600 / 60, rem % 60⟩⟩

/-- `OffsetDateTime + Duration` for a duration of `k` seconds. -/
def DateTime.addSecs (t : DateTime) (k : Int) : DateTime :=
  ofEpochSecs (t.toEpochSecs + k)

/-- ISO weekday number, Monday = 1 … Sunday = 7 (1970-01-01 was a
Thursday). -/
def isoWeekdayNum (d : Date) : Nat :=
  (Int.emod (d.toDays + 3) 7).toNat + 1

/-- Number of ISO weeks in a year: 53 when Jan 1 is a Thursday, or a leap
year's Jan 1 is a Wednesday; 52 otherwise. -/
def weeksInYear (year : Int) : Nat :=
  let wd := isoWeekdayNum ⟨year, .january, 1⟩
  if wd = 4 ∨ (isLeap year ∧ wd = 3) then 53 else 52

/-- `Date::iso_week` (ISO 8601 week number). -/
def isoWeek (d : Date) : Nat :=
  let wd := isoWeekdayNum d
  let ord : Nat := (d.toDays - Date.toDays ⟨d.year, .january, 1⟩).toNat + 1
  let week := (ord + 10 - wd) / 7
  if week = 0 then weeksInYear (d.year - 1)
  else if week = 53 ∧ weeksInYear d.year = 52 then 1
  else week

/-- `Date::from_iso_week_date(year, week, Weekday::Monday)`: `Err`
(→ `none`) when the week number is not a week of that ISO year. -/
def fromIsoWeekDate (year : Int) (week : Nat) : Option Date :=
  if 1 ≤ week ∧ week ≤ weeksInYear year then
    let jan4 : Date := ⟨year, .january, 4⟩
    let mondayWeek1 : Int := jan4.toDays - ((isoWeekdayNum jan4 - 1 : Nat) : Int)
    some (dateFromDays (mondayWeek1 + 7 * ((week : Int) - 1)))
  else none

inductive TimeTruncate where
  | year | quarter | month | week | day | hour | minute
  deriving DecidableEq

/-- `TimeTruncate::lower_bound(timestamp)`. -/
def TimeTruncate.lowerBound (u : TimeTruncate) (timestamp : DateTime) : Option DateTime := do
  let date ← match u with
    | .year => fromCalendarDate timestamp.date.year .january 1
    | .quarter =>
        let m := match timestamp.date.month with
          | .january | .february | .march => Month.january
          | .april | .may | .june => .april
          | .july | .august | .september => .july
          | .october | .november | .december => .october
        fromCalendarDate timestamp.date.year m 1
    | .month => fromCalendarDate timestamp.date.year timestamp.date.month 1
    | .week => fromIsoWeekDate timestamp.date.year (isoWeek timestamp.date)
    | _ => some timestamp.date
  let time ← match u with
    | .hour => fromHms timestamp.time.hour 0 0
    | .minute => fromHms timestamp.time.hour timestamp.time.minute 0
    | _ => fromHms 0 0 0
  some ⟨date, time⟩

/-- `TimeTruncate::upper_bound(timestamp)`: step forward by one unit (Year
replaces the date with Jan 1 of the next year; Quarter and Month keep the
day-of-month while advancing the month; the smaller units add a fixed
duration), then take that instant's lower bound. -/
def TimeTruncate.upperBound (u : TimeTruncate) (timestamp : DateTime) : Option DateTime := do
  let next ← match u with
    | .year =>
        (fromCalendarDate (timestamp.date.year + 1) .january 1).map
          (fun d => DateTime.mk d timestamp.time)
    | .quarter =>
        let ym : Int × Month := match timestamp.date.month with
          | .january | .february | .march => (timestamp.date.year, .april)
          | .april | .may | .june => (timestamp.date.year, .july)
          | .july | .august | .september => (timestamp.date.year, .october)
          | .october | .november | .december => (timestamp.date.year + 1, .january)
        (fromCalendarDate ym.1 ym.2 timestamp.date.day).map
          (fun d => DateTime.mk d timestamp.time)
    | .month =>
        let ym : Int × Month := match timestamp.date.month with
          | .december => (timestamp.date.year + 1, .january)
          | m => (timestamp.date.year, m.next)
        (fromCalendarDate ym.1 ym.2 timestamp.date.day).map
          (fun d => DateTime.mk d timestamp.time)
    | .week => some (timestamp.addSecs (7 * 86400))
    | .day => some (timestamp.addSecs 86400)
    | .hour => some (timestamp.addSecs 3600)
    | .minute => some (timestamp.addSecs 60)
  u.lowerBound next

end Partition

/-! # Theorems

General lemmas about the decimal renderer and the placeholder scanner, then
one theorem (plus witness or counterexample material) per claim. -/

theorem natDigitsGo_fuel :
    ∀ (f1 f2 n : Nat) (acc : List Char), n < f1 → n < f2 →
      natDigitsGo f1 n acc = natDigitsGo f2 n acc
  | f1 + 1, f2 + 1, n, acc, _, _ => by
      by_cases h : n < 10
      · simp [natDigitsGo, h]
      · have hd : n / 10 < n := Nat.div_lt_self (by omega) (by omega)
        simp only [natDigitsGo, if_neg h]
        exact natDigitsGo_fuel f1 f2 (n / 10) _ (by omega) (by omega)
  | 0, _, n, _, h1, _ => absurd h1 (by omega)
  | _ + 1, 0, n, _, _, h2 => absurd h2 (by omega)

theorem natDigitsGo_acc :
    ∀ (fuel n : Nat) (acc : List Char), n < fuel →
      natDigitsGo fuel n acc = natDigits n ++ acc
  | fuel + 1, n, acc, _ => by
      by_cases h : n < 10
      · simp [natDigitsGo, natDigits, h]
      · have hd : n / 10 < n := Nat.div_lt_self (by omega) (by omega)
        simp only [natDigitsGo, if_neg h]
        rw [natDigitsGo_acc fuel (n / 10) _ (by omega)]
        have hrhs : natDigits n = natDigits (n / 10) ++ [digitChar (n % 10)] := by
          show natDigitsGo (n + 1) n [] = _
          simp only [natDigitsGo, if_neg h]
          rw [natDigitsGo_fuel n (n / 10 + 1) (n / 10) _ (by omega) (by omega),
            natDigitsGo_acc (n / 10 + 1) (n / 10) _ (by omega)]
        rw [hrhs, List.append_assoc]
        rfl
  | 0, n, _, h => absurd h (by omega)

theorem natDigits_small {n : Nat} (h : n < 10) : natDigits n = [digitChar n] := by
  simp [natDigits, natDigitsGo, h]

theorem natDigits_step {n : Nat} (h : 10 ≤ n) :
    natDigits n = natDigits (n / 10) ++ [digitChar (n % 10)] := by
  show natDigitsGo (n + 1) n [] = _
  simp only [natDigitsGo, if_neg (by omega : ¬ n < 10)]
  have hd : n / 10 < n := Nat.div_lt_self (by omega) (by omega)
  rw [natDigitsGo_fuel n (n / 10 + 1) (n / 10) _ (by omega) (by omega),
    natDigitsGo_acc (n / 10 + 1) (n / 10) _ (by omega)]

theorem isDigit_digitChar {d : Nat} (h : d < 10) : (digitChar d).isDigit = true := by
  interval_cases d <;> decide

theorem digitVal_digitChar {d : Nat} (h : d < 10) : digitVal (digitChar d) = d := by
  interval_cases d <;> decide

theorem natDigits_all_digit : ∀ (n : Nat), ∀ c ∈ natDigits n, c.isDigit = true := by
  intro n
  induction n using Nat.strong_induction_on with
  | _ n ih =>
    by_cases h : n < 10
    · rw [natDigits_small h]
      intro c hc
      rw [List.mem_singleton] at hc
      subst hc
      exact isDigit_digitChar h
    · rw [natDigits_step (by omega)]
      intro c hc
      rcases List.mem_append.mp hc with h1 | h2
      · exact ih (n / 10) (Nat.div_lt_self (by omega) (by omega)) c h1
      · rw [List.mem_singleton] at h2
        subst h2
        exact isDigit_digitChar (Nat.mod_lt _ (by omega))

theorem natDigits_ne_nil (n : Nat) : natDigits n ≠ [] := by
  by_cases h : n < 10
  · rw [natDigits_small h]; simp
  · rw [natDigits_step (by omega)]; simp

theorem foldl_natDigits :
    ∀ (n v : Nat),
      List.foldl (fun a c => a * 10 + digitVal c) v (natDigits n) =
        v * 10 ^ (natDigits n).length + n := by
  intro n
  induction n using Nat.strong_induction_on with
  | _ n ih =>
    intro v
    by_cases h : n < 10
    · rw [natDigits_small h]
      simp [digitVal_digitChar h]
    · rw [natDigits_step (by omega)]
      rw [List.foldl_append, List.length_append]
      have hd : n / 10 < n := Nat.div_lt_self (by omega) (by omega)
      rw [ih (n / 10) hd v]
      simp only [List.foldl_cons, List.foldl_nil, List.length_singleton]
      rw [digitVal_digitChar (Nat.mod_lt _ (by omega))]
      have heq : (v * 10 ^ (natDigits (n / 10)).length + n / 10) * 10 + n % 10 =
          v * (10 ^ (natDigits (n / 10)).length * 10) + (n / 10 * 10 + n % 10) := by ring
      have h2 : n / 10 * 10 + n % 10 = n := by omega
      rw [heq, h2, pow_succ]

theorem extractGo_append :
    ∀ (a b : List Char) (s : PHState),
      (∀ c, b.head? = some c → c.isDigit = false) →
      extractGo (a ++ b) s = extractGo a s ++ extractGo b .plain := by
  intro a
  induction a with
  | nil =>
      intro b s hb
      cases s with
      | plain => simp [extractGo]
      | dollar =>
          cases b with
          | nil => simp [extractGo]
          | cons c rest =>
              have hc := hb c rfl
              simp [extractGo, hc]
      | num v =>
          cases b with
          | nil => simp [extractGo]
          | cons c rest =>
              have hc := hb c rfl
              simp [extractGo, hc]
  | cons c rest ih =>
      intro b s hb
      cases s with
      | plain =>
          by_cases hc : c = '$' <;> simp [extractGo, hc, ih b _ hb]
      | dollar =>
          by_cases hd : c.isDigit
          · simp [extractGo, hd, ih b _ hb]
          · by_cases hc : c = '$' <;> simp [extractGo, hd, hc, ih b _ hb]
      | num v =>
          by_cases hd : c.isDigit
          · simp [extractGo, hd, ih b _ hb]
          · by_cases hc : c = '$' <;> simp [extractGo, hd, hc, ih b _ hb]

theorem extractGo_digits :
    ∀ (ds rest : List Char) (v : Nat), (∀ c ∈ ds, c.isDigit = true) →
      extractGo (ds ++ rest) (.num v) =
        extractGo rest (.num (List.foldl (fun a c => a * 10 + digitVal c) v ds)) := by
  intro ds
  induction ds with
  | nil => intro rest v _; simp
  | cons c rest ih =>
      intro b v hds
      have hc : c.isDigit = true := hds c (by simp)
      have hstep : extractGo ((c :: rest) ++ b) (.num v) =
          extractGo (rest ++ b) (.num (v * 10 + digitVal c)) := by
        simp [extractGo, hc]
      rw [hstep, ih b _ (fun d hd => hds d (by simp [hd]))]
      simp

theorem extractPH_dollar (n : Nat) : extractPH ("$" ++ natRepr n) = [n] := by
  have hdata : ("$" ++ natRepr n).data = '$' :: natDigits n := by
    rw [String.data_append]; rfl
  rw [extractPH, hdata]
  have h1 : extractGo ('$' :: natDigits n) .plain = extractGo (natDigits n) .dollar := by
    simp [extractGo]
  rw [h1]
  cases hd : natDigits n with
  | nil => exact absurd hd (natDigits_ne_nil n)
  | cons d ds =>
      have hddig : d.isDigit = true := natDigits_all_digit n d (by rw [hd]; simp)
      have h2 : extractGo (d :: ds) .dollar = extractGo ds (.num (digitVal d)) := by
        simp [extractGo, hddig]
      rw [h2]
      have h3 := extractGo_digits ds [] (digitVal d)
        (fun c hc => natDigits_all_digit n c (by rw [hd]; simp [hc]))
      simp only [List.append_nil] at h3
      rw [h3]
      have h4 : List.foldl (fun a c => a * 10 + digitVal c) (digitVal d) ds = n := by
        have h5 := foldl_natDigits n 0
        rw [hd] at h5
        simpa using h5
      simp [extractGo, h4]

theorem extractPH_append (a b : String) (hb : headNotDigit b) :
    extractPH (a ++ b) = extractPH a ++ extractPH b := by
  rw [extractPH, extractPH, extractPH, String.data_append]
  exact extractGo_append a.data b.data .plain hb

theorem extractGo_append_lastSafe :
    ∀ (a b : List Char) (s : PHState), a ≠ [] →
      (∀ c, a.getLast? = some c → c.isDigit = false ∧ c ≠ '$') →
      extractGo (a ++ b) s = extractGo a s ++ extractGo b .plain := by
  intro a
  induction a with
  | nil => intro b s hne _; exact absurd rfl hne
  | cons c rest ih =>
      intro b s _ h
      cases rest with
      | nil =>
          obtain ⟨hcd, hcs⟩ := h c rfl
          cases s with
          | plain => simp [extractGo, hcs]
          | dollar => simp [extractGo, hcd, hcs]
          | num v => simp [extractGo, hcd, hcs]
      | cons d tail =>
          have h' : ∀ c', (d :: tail).getLast? = some c' →
              c'.isDigit = false ∧ c' ≠ '$' := by
            intro c' hc'
            exact h c' (by rw [List.getLast?_cons_cons]; exact hc')
          have hne' : d :: tail ≠ [] := by simp
          have ihs := fun st => ih b st hne' h'
          cases s with
          | plain =>
              by_cases hc : c = '$'
              · rw [show extractGo ((c :: d :: tail) ++ b) .plain =
                    extractGo ((d :: tail) ++ b) .dollar from by simp [extractGo, hc],
                  show extractGo (c :: d :: tail) .plain =
                    extractGo (d :: tail) .dollar from by simp [extractGo, hc],
                  ihs .dollar]
              · rw [show extractGo ((c :: d :: tail) ++ b) .plain =
                    extractGo ((d :: tail) ++ b) .plain from by simp [extractGo, hc],
                  show extractGo (c :: d :: tail) .plain =
                    extractGo (d :: tail) .plain from by simp [extractGo, hc],
                  ihs .plain]
          | dollar =>
              by_cases hd : c.isDigit
              · rw [show extractGo ((c :: d :: tail) ++ b) .dollar =
                    extractGo ((d :: tail) ++ b) (.num (digitVal c)) from by
                      simp [extractGo, hd],
                  show extractGo (c :: d :: tail) .dollar =
                    extractGo (d :: tail) (.num (digitVal c)) from by simp [extractGo, hd],
                  ihs (.num (digitVal c))]
              · by_cases hc : c = '$'
                · rw [show extractGo ((c :: d :: tail) ++ b) .dollar =
                      extractGo ((d :: tail) ++ b) .dollar from by simp [extractGo, hd, hc],
                    show extractGo (c :: d :: tail) .dollar =
                      extractGo (d :: tail) .dollar from by simp [extractGo, hd, hc],
                    ihs .dollar]
                · rw [show extractGo ((c :: d :: tail) ++ b) .dollar =
                      extractGo ((d :: tail) ++ b) .plain from by simp [extractGo, hd, hc],
                    show extractGo (c :: d :: tail) .dollar =
                      extractGo (d :: tail) .plain from by simp [extractGo, hd, hc],
                    ihs .plain]
          | num v =>
              by_cases hd : c.isDigit
              · rw [show extractGo ((c :: d :: tail) ++ b) (.num v) =
                    extractGo ((d :: tail) ++ b) (.num (v * 10 + digitVal c)) from by
                      simp [extractGo, hd],
                  show extractGo (c :: d :: tail) (.num v) =
                    extractGo (d :: tail) (.num (v * 10 + digitVal c)) from by
                      simp [extractGo, hd],
                  ihs (.num (v * 10 + digitVal c))]
              · by_cases hc : c = '$'
                · rw [show extractGo ((c :: d :: tail) ++ b) (.num v) =
                      v :: extractGo ((d :: tail) ++ b) .dollar from by
                        simp [extractGo, hd, hc],
                    show extractGo (c :: d :: tail) (.num v) =
                      v :: extractGo (d :: tail) .dollar from by simp [extractGo, hd, hc],
                    ihs .dollar, List.cons_append]
                · rw [show extractGo ((c :: d :: tail) ++ b) (.num v) =
                      v :: extractGo ((d :: tail) ++ b) .plain from by
                        simp [extractGo, hd, hc],
                    show extractGo (c :: d :: tail) (.num v) =
                      v :: extractGo (d :: tail) .plain from by simp [extractGo, hd, hc],
                    ihs .plain, List.cons_append]

theorem extractPH_append_lastSafe (a b : String) (ha : lastNotDigitDollar a) :
    extractPH (a ++ b) = extractPH a ++ extractPH b := by
  rw [extractPH, extractPH, extractPH, String.data_append]
  cases had : a.data with
  | nil => simp [had, extractGo]
  | cons c rest =>
      rw [← had]
      exact extractGo_append_lastSafe a.data b.data .plain (by rw [had]; simp)
        (fun c hc => ha c hc)

theorem headNotDigit_append (s t : String) (hs : headNotDigit s) (ht : headNotDigit t) :
    headNotDigit (s ++ t) := by
  intro c hc
  rw [String.data_append, List.head?_append] at hc
  cases h : s.data.head? with
  | none => rw [h] at hc; exact ht c hc
  | some d => rw [h] at hc; simp at hc; subst hc; exact hs _ h

theorem headNotDigit_dollar (s : String) : headNotDigit ("$" ++ s) := by
  intro c hc
  rw [String.data_append] at hc
  simp only [List.head?_append] at hc
  have h2 : '$' = c := by simpa using hc
  subst h2
  decide

theorem extract_dollar_run (n : Nat) (suf : String) (hs : headNotDigit suf) :
    extractPH ("$" ++ (natRepr n ++ suf)) = n :: extractPH suf := by
  rw [← String.append_assoc, extractPH_append _ _ hs, extractPH_dollar]
  rfl

theorem extractPH_psl (pre suf : String) (n : Nat)
    (hpre : extractPH pre = []) (hsufE : extractPH suf = []) (hs : headNotDigit suf) :
    extractPH (pre ++ "$" ++ natRepr n ++ suf) = [n] := by
  rw [String.append_assoc, String.append_assoc,
    extractPH_append _ _ (headNotDigit_dollar _), hpre, extract_dollar_run n suf hs, hsufE]
  rfl

/-! ## C3: the counts-interval choice -/

theorem scanIntervals_first (d : Nat) :
    ∀ l : List (Nat × String × String),
      (∃ pre s i t post,
        l = pre ++ (s, i, t) :: post ∧
        Interval.scanIntervals d l = ⟨s, t, i⟩ ∧
        d / s < 100 ∧
        ∀ e ∈ pre, ¬ d / e.1 < 100) ∨
      ((∀ e ∈ l, ¬ d / e.1 < 100) ∧ Interval.scanIntervals d l = Interval.fallback) := by
  intro l
  induction l with
  | nil => exact Or.inr ⟨by simp, rfl⟩
  | cons x rest ih =>
      obtain ⟨s, i, t⟩ := x
      by_cases h : d / s < 100
      · exact Or.inl ⟨[], s, i, t, rest, by simp, by simp [Interval.scanIntervals, h], h, by simp⟩
      · have hscan : Interval.scanIntervals d ((s, i, t) :: rest) =
            Interval.scanIntervals d rest := by
          simp [Interval.scanIntervals, h]
        rcases ih with ⟨pre, s', i', t', post, hsplit, hval, hmatch, hpre⟩ | ⟨hnone, hval⟩
        · refine Or.inl ⟨(s, i, t) :: pre, s', i', t', post, ?_, ?_, hmatch, ?_⟩
          · rw [List.cons_append, hsplit]
          · rw [hscan, hval]
          · intro e he
            rcases List.mem_cons.mp he with he | he
            · subst he; exact h
            · exact hpre e he
        · refine Or.inr ⟨?_, by rw [hscan, hval]⟩
          intro e he
          rcases List.mem_cons.mp he with he | he
          · subst he; exact h
          · exact hnone e he

theorem scanIntervals_min (d : Nat) :
    ∀ l : List (Nat × String × String),
      List.Pairwise (fun a b => a.1 ≤ b.1) l →
      ∀ e ∈ l, d / e.1 < 100 → (Interval.scanIntervals d l).seconds ≤ e.1 := by
  intro l
  induction l with
  | nil => intro _ e he; simp at he
  | cons x rest ih =>
      intro hp e he hd
      obtain ⟨s, i, t⟩ := x
      rw [List.pairwise_cons] at hp
      by_cases h : d / s < 100
      · have hscan : Interval.scanIntervals d ((s, i, t) :: rest) =
            ⟨s, t, i⟩ := by simp [Interval.scanIntervals, h]
        rw [hscan]
        rcases List.mem_cons.mp he with he | he
        · subst he; exact le_refl _
        · exact hp.1 e he
      · have hscan : Interval.scanIntervals d ((s, i, t) :: rest) =
            Interval.scanIntervals d rest := by simp [Interval.scanIntervals, h]
        rw [hscan]
        rcases List.mem_cons.mp he with he | he
        · subst he; exact absurd hd h
        · exact ih hp.2 e he hd

/-- C3: `CountsInterval::from(d)` returns the first ladder entry whose
seconds `s` satisfies `|d| / s < 100` (every earlier entry fails the test);
when no entry satisfies it, the 100-year fallback triple is returned.  The
ladder is ascending, so the chosen entry is also the smallest satisfying one
(second conjunct).  The function is a pure total function of `d`, so
re-invocation yields the same triple by definition. -/
theorem C3_counts_interval_first_match (d : Int) :
    ((∃ pre s i t post,
        Interval.INTERVALS = pre ++ (s, i, t) :: post ∧
        Interval.countsIntervalFrom d = ⟨s, t, i⟩ ∧
        d.natAbs / s < 100 ∧
        ∀ e ∈ pre, ¬ d.natAbs / e.1 < 100) ∨
      ((∀ e ∈ Interval.INTERVALS, ¬ d.natAbs / e.1 < 100) ∧
        Interval.countsIntervalFrom d = Interval.fallback)) ∧
    (∀ e ∈ Interval.INTERVALS, d.natAbs / e.1 < 100 →
      (Interval.countsIntervalFrom d).seconds ≤ e.1) ∧
    Interval.fallback =
      { seconds := 100 * 365 * 24 * 3600, truncate := "year", interval := "100 years" } := by
  refine ⟨scanIntervals_first d.natAbs Interval.INTERVALS, ?_, rfl⟩
  exact scanIntervals_min d.natAbs Interval.INTERVALS (by decide)

/-- Witness for C3 at the concrete span of four hours (14400 s): the chosen
entry is the 5-minute bucket and it is minimal among matching entries. -/
theorem C3_counts_interval_witness :
    Interval.countsIntervalFrom 14400 = ⟨300, "minute", "5 minutes"⟩ ∧
    (Interval.countsIntervalFrom 14400).seconds ≤ 300 := by
  refine ⟨by decide, ?_⟩
  exact (C3_counts_interval_first_match 14400).2.1 (300, "5 minutes", "minute")
    (by decide) (by decide)

/-! ## C2: the time-bucket bounds -/

/-- C2 names the claim that both bounds are defined for every valid
timestamp, month-end days included.  The code violates this:
`upper_bound(Month)` keeps the day-of-month while advancing the month, and
`Date::from_calendar_date(2021, February, 31)` is an error whose `.unwrap()`
panics.  This theorem evaluates the embedded code at the failing input
2021-01-31T00:00:00Z. -/
theorem C2_month_end_upper_bound_undefined :
    Partition.TimeTruncate.upperBound .month
      ⟨⟨2021, .january, 31⟩, ⟨0, 0, 0⟩⟩ = none ∧
    Partition.fromCalendarDate 2021 .february 31 = none ∧
    Partition.TimeTruncate.lowerBound .month
      ⟨⟨2021, .january, 31⟩, ⟨0, 0, 0⟩⟩ =
        some ⟨⟨2021, .january, 1⟩, ⟨0, 0, 0⟩⟩ := by
  refine ⟨by decide, by decide, by decide⟩

/-! ## C9: the event-endpoint response byte stream -/

/-- C9: the bytes of an event-endpoint response are exactly the literal
prefix, the events payload, the three labelled separators with the fields,
counts and metadata payloads, and the closing brace, concatenated in that
fixed order — hence every events byte precedes every fields byte, which
precede the counts bytes, which precede the metadata bytes. -/
theorem C9_response_stream_order (e f c m : List String) :
    Events.emitted (Events.streamsChunks e f c m) =
      "\x7b\"events\":".data ++ Events.emitted e ++
      ", \"fields\":".data ++ Events.emitted f ++
      ", \"counts\":".data ++ Events.emitted c ++
      ", \"metadata\":".data ++ Events.emitted m ++
      "\x7d".data := by
  simp [Events.streamsChunks, Events.emitted, List.flatten_append]

/-! ## C10: the empty query -/

/-- C10: compiling the empty query string returns the SQL text `1 = 1` and
an empty parameter vector, in both compilers (`ExpressionParser::to_sql` of
the query crate, at any parameter offset, and `parse_query` of
`logstuff::query`), whatever the underlying parser would do. -/
theorem C10_empty_query
    (parseQ : String → Except Nat QAst.Expression)
    (parseL : String → Except Nat LQuery.Expression)
    (paramOffset : Nat) :
    QAst.toSql parseQ "" paramOffset = some (.ok ("1 = 1", [])) ∧
    LQuery.parseQuery parseL "" = .ok ("1 = 1", []) := by
  have hempty : ("" : String).isEmpty = true := by decide
  constructor
  · simp [QAst.toSql, hempty]
  · simp [LQuery.parseQuery, hempty]

/-! ## C5: negated operators prepend `NOT ` at the leaf -/

/-- C5: for each negatable operator pair, compiling the negated leaf
comparison yields exactly the string `"NOT "` prepended to the SQL of the
positive comparison at the same parameter offset, with an identical parameter
vector (`walk_tree` of `logstuff::query`, where `!=`, `not in` and
`not like` are leaf operators). -/
theorem C5_negation_prepends_not (a : String) (b : LQuery.Value) (off : Nat) :
    (LQuery.walkTree (.compare (.identifier a) .neq b) off =
      ("NOT " ++ (LQuery.walkTree (.compare (.identifier a) .eq b) off).1,
        (LQuery.walkTree (.compare (.identifier a) .eq b) off).2)) ∧
    (LQuery.walkTree (.compare (.identifier a) .opNotIn b) off =
      ("NOT " ++ (LQuery.walkTree (.compare (.identifier a) .opIn b) off).1,
        (LQuery.walkTree (.compare (.identifier a) .opIn b) off).2)) ∧
    (LQuery.walkTree (.compare (.identifier a) .notLike b) off =
      ("NOT " ++ (LQuery.walkTree (.compare (.identifier a) .like b) off).1,
        (LQuery.walkTree (.compare (.identifier a) .like b) off).2)) := by
  refine ⟨?_, ?_, ?_⟩ <;>
    cases b <;>
      simp [LQuery.walkTree, LQuery.formatOperand, LQuery.negateOf, LQuery.primitiveOf,
        LQuery.symbolOf, String.append_assoc]

/-! ## C4: placeholder indices of compiled expressions -/

theorem headNotDigit_append_left (s t : String) (hne : s.data ≠ []) (hs : headNotDigit s) :
    headNotDigit (s ++ t) := by
  intro c hc
  rw [String.data_append] at hc
  cases hsd : s.data with
  | nil => exact absurd hsd hne
  | cons d tail =>
      rw [hsd, List.cons_append, List.head?_cons] at hc
      injection hc with hdc
      subst hdc
      exact hs d (by rw [hsd]; rfl)

theorem formatOperand_facts (v : LQuery.Value) (off : Nat) (prim : Bool) :
    extractPH (LQuery.formatOperand v off prim).1 = [off] ∧
    (LQuery.formatOperand v off prim).2.length = 1 ∧
    headNotDigit (LQuery.formatOperand v off prim).1 := by
  cases v <;> cases prim
  · -- identifier, json getter
    refine ⟨?_, rfl, ?_⟩
    · show extractPH ("doc -> ($" ++ natRepr off ++ "::jsonb #>> '\x7b\x7d')") = [off]
      exact extractPH_psl "doc -> (" "::jsonb #>> '\x7b\x7d')" off (by decide) (by decide)
        (by decide)
    · show headNotDigit ("doc -> ($" ++ natRepr off ++ "::jsonb #>> '\x7b\x7d')")
      exact headNotDigit_append_left _ _ (by
        rw [String.data_append]; simp) (headNotDigit_append_left _ _ (by decide) (by decide))
  · -- identifier, primitive getter
    refine ⟨?_, rfl, ?_⟩
    · show extractPH ("doc ->> ($" ++ natRepr off ++ "::jsonb #>> '\x7b\x7d')") = [off]
      exact extractPH_psl "doc ->> (" "::jsonb #>> '\x7b\x7d')" off (by decide) (by decide)
        (by decide)
    · show headNotDigit ("doc ->> ($" ++ natRepr off ++ "::jsonb #>> '\x7b\x7d')")
      exact headNotDigit_append_left _ _ (by
        rw [String.data_append]; simp) (headNotDigit_append_left _ _ (by decide) (by decide))
  · -- scalar, json parameter
    exact ⟨extractPH_dollar off, rfl, headNotDigit_dollar _⟩
  · -- scalar, primitive parameter
    refine ⟨?_, rfl, ?_⟩
    · show extractPH ("$" ++ natRepr off ++ "::jsonb #>> '\x7b\x7d'") = [off]
      rw [String.append_assoc, extract_dollar_run off _ (by decide),
        show extractPH "::jsonb #>> '\x7b\x7d'" = [] from by decide]
    · show headNotDigit ("$" ++ natRepr off ++ "::jsonb #>> '\x7b\x7d'")
      exact headNotDigit_append_left _ _ (by
        rw [String.data_append]; simp) (headNotDigit_dollar _)
  · -- list, json parameter
    refine ⟨?_, rfl, ?_⟩
    · show extractPH ("$" ++ natRepr off ++ "::jsonb") = [off]
      rw [String.append_assoc, extract_dollar_run off _ (by decide),
        show extractPH "::jsonb" = [] from by decide]
    · show headNotDigit ("$" ++ natRepr off ++ "::jsonb")
      exact headNotDigit_append_left _ _ (by
        rw [String.data_append]; simp) (headNotDigit_dollar _)
  · -- list, primitive parameter
    refine ⟨?_, rfl, ?_⟩
    · show extractPH ("(select jsonb_array_elements($" ++ natRepr off ++
        "::jsonb) #>> '\x7b\x7d')") = [off]
      exact extractPH_psl "(select jsonb_array_elements(" "::jsonb) #>> '\x7b\x7d')" off
        (by decide) (by decide) (by decide)
    · show headNotDigit ("(select jsonb_array_elements($" ++ natRepr off ++
        "::jsonb) #>> '\x7b\x7d')")
      exact headNotDigit_append_left _ _ (by
        rw [String.data_append]; simp) (headNotDigit_append_left _ _ (by decide) (by decide))

theorem symbolOf_extract (op : LQuery.CompOp) : extractPH (LQuery.symbolOf op) = [] := by
  cases op <;> decide

theorem symbolOf_head (op : LQuery.CompOp) : headNotDigit (LQuery.symbolOf op) := by
  cases op <;> decide

theorem range'_two (off : Nat) : List.range' off 2 = [off, off + 1] := rfl

theorem extract_comparison (l sym r : String) (a b : Nat)
    (hl : extractPH l = [a]) (hlh : headNotDigit l)
    (hr : extractPH r = [b]) (hrh : headNotDigit r)
    (hsym : extractPH sym = []) (hsymh : headNotDigit sym) :
    extractPH (l ++ " " ++ sym ++ " " ++ r) = [a, b] ∧
    headNotDigit (l ++ " " ++ sym ++ " " ++ r) := by
  constructor
  · rw [extractPH_append _ _ hrh,
      extractPH_append _ _ (by decide : headNotDigit " "),
      extractPH_append _ _ hsymh,
      extractPH_append _ _ (by decide : headNotDigit " "),
      hl, hr, hsym, show extractPH " " = [] from by decide]
    rfl
  · exact headNotDigit_append _ _ (headNotDigit_append _ _ (headNotDigit_append _ _
      (headNotDigit_append _ _ hlh (by decide)) hsymh) (by decide)) hrh

theorem stringGetter_facts (id : String) (off : Nat) :
    extractPH (QAst.stringGetter id off).1 = [off] ∧
    (QAst.stringGetter id off).2.length = 1 ∧
    headNotDigit (QAst.stringGetter id off).1 := by
  refine ⟨?_, rfl, ?_⟩
  · show extractPH ("doc ->> ($" ++ natRepr off ++ "::jsonb #>> '\x7b\x7d')") = [off]
    exact extractPH_psl "doc ->> (" "::jsonb #>> '\x7b\x7d')" off (by decide) (by decide)
      (by decide)
  · show headNotDigit ("doc ->> ($" ++ natRepr off ++ "::jsonb #>> '\x7b\x7d')")
    exact headNotDigit_append_left _ _ (by
      rw [String.data_append]; simp) (headNotDigit_append_left _ _ (by decide) (by decide))

theorem jsonGetter_facts (id : String) (off : Nat) :
    extractPH (QAst.jsonGetter id off).1 = [off] ∧
    (QAst.jsonGetter id off).2.length = 1 ∧
    headNotDigit (QAst.jsonGetter id off).1 := by
  refine ⟨?_, rfl, ?_⟩
  · show extractPH ("doc -> ($" ++ natRepr off ++ "::jsonb #>> '\x7b\x7d')") = [off]
    exact extractPH_psl "doc -> (" "::jsonb #>> '\x7b\x7d')" off (by decide) (by decide)
      (by decide)
  · show headNotDigit ("doc -> ($" ++ natRepr off ++ "::jsonb #>> '\x7b\x7d')")
    exact headNotDigit_append_left _ _ (by
      rw [String.data_append]; simp) (headNotDigit_append_left _ _ (by decide) (by decide))

theorem numericGetter_facts (id : String) (off : Nat) :
    extractPH (QAst.numericGetter id off).1 = [off] ∧
    (QAst.numericGetter id off).2.length = 1 ∧
    headNotDigit (QAst.numericGetter id off).1 := by
  refine ⟨?_, rfl, ?_⟩
  · show extractPH ("to_number_or_null(" ++ (QAst.stringGetter id off).1 ++ ")") = [off]
    rw [extractPH_append _ _ (by decide : headNotDigit ")"),
      extractPH_append _ _ (stringGetter_facts id off).2.2,
      (stringGetter_facts id off).1,
      show extractPH "to_number_or_null(" = [] from by decide,
      show extractPH ")" = [] from by decide]
    rfl
  · show headNotDigit ("to_number_or_null(" ++ (QAst.stringGetter id off).1 ++ ")")
    exact headNotDigit_append_left _ _ (by
      rw [String.data_append]; simp)
      (headNotDigit_append_left _ _ (by decide) (by decide))

theorem toSqlPrimitiveParam_facts (v : QAst.Value) (off : Nat) :
    extractPH (v.toSqlPrimitiveParam off).1 = [off] ∧
    (v.toSqlPrimitiveParam off).2.length = 1 ∧
    headNotDigit (v.toSqlPrimitiveParam off).1 := by
  cases v
  · refine ⟨?_, rfl, ?_⟩
    · show extractPH ("$" ++ natRepr off ++ "::jsonb #>> '\x7b\x7d'") = [off]
      rw [String.append_assoc, extract_dollar_run off _ (by decide),
        show extractPH "::jsonb #>> '\x7b\x7d'" = [] from by decide]
    · show headNotDigit ("$" ++ natRepr off ++ "::jsonb #>> '\x7b\x7d'")
      exact headNotDigit_append_left _ _ (by
        rw [String.data_append]; simp) (headNotDigit_dollar _)
  · refine ⟨?_, rfl, ?_⟩
    · show extractPH ("(select jsonb_array_elements($" ++ natRepr off ++
        "::jsonb) #>> '\x7b\x7d')") = [off]
      exact extractPH_psl "(select jsonb_array_elements(" "::jsonb) #>> '\x7b\x7d')" off
        (by decide) (by decide) (by decide)
    · show headNotDigit ("(select jsonb_array_elements($" ++ natRepr off ++
        "::jsonb) #>> '\x7b\x7d')")
      exact headNotDigit_append_left _ _ (by
        rw [String.data_append]; simp) (headNotDigit_append_left _ _ (by decide) (by decide))

theorem toSqlJsonParam_facts (v : QAst.Value) (off : Nat) :
    extractPH (v.toSqlJsonParam off).1 = [off] ∧
    (v.toSqlJsonParam off).2.length = 1 ∧
    headNotDigit (v.toSqlJsonParam off).1 := by
  cases v
  · exact ⟨extractPH_dollar off, rfl, headNotDigit_dollar _⟩
  · refine ⟨?_, rfl, ?_⟩
    · show extractPH ("$" ++ natRepr off ++ "::jsonb") = [off]
      rw [String.append_assoc, extract_dollar_run off _ (by decide),
        show extractPH "::jsonb" = [] from by decide]
    · show headNotDigit ("$" ++ natRepr off ++ "::jsonb")
      exact headNotDigit_append_left _ _ (by
        rw [String.data_append]; simp) (headNotDigit_dollar _)

theorem toSqlNumericParam_facts (v : QAst.Value) (off : Nat) (r : String × List Json)
    (h : v.toSqlNumericParam off = some r) :
    extractPH r.1 = [off] ∧ r.2.length = 1 ∧ headNotDigit r.1 := by
  cases v with
  | list l => exact absurd h (by simp [QAst.Value.toSqlNumericParam])
  | scalar sc =>
      have hr : r = ("($" ++ natRepr off ++ "::jsonb #>> '\x7b\x7d')::numeric",
          [sc.asJson]) := by
        have := h.symm
        simpa [QAst.Value.toSqlNumericParam] using this
      subst hr
      refine ⟨?_, rfl, ?_⟩
      · show extractPH ("($" ++ natRepr off ++ "::jsonb #>> '\x7b\x7d')::numeric") = [off]
        exact extractPH_psl "(" "::jsonb #>> '\x7b\x7d')::numeric" off (by decide)
          (by decide) (by decide)
      · show headNotDigit ("($" ++ natRepr off ++ "::jsonb #>> '\x7b\x7d')::numeric")
        exact headNotDigit_append_left _ _ (by
          rw [String.data_append]; simp) (headNotDigit_append_left _ _ (by decide) (by decide))

theorem sqlSymbol_extract (op : QAst.Operator) : extractPH op.sqlSymbol = [] := by
  cases op <;> decide

theorem sqlSymbol_head (op : QAst.Operator) : headNotDigit op.sqlSymbol := by
  cases op <;> decide

theorem toSqlQuery_placeholders (e : QAst.Expression) :
    ∀ (off : Nat) (sql : String) (ps : List Json),
      QAst.toSqlQuery e off = some (sql, ps) →
      extractPH sql = List.range' off ps.length ∧ headNotDigit sql := by
  induction e with
  | compare id op value =>
      intro off sql ps h
      cases hw : op.wantedOperands with
      | string =>
          have hif := stringGetter_facts id off
          simp only [QAst.toSqlQuery, hw] at h
          rw [hif.2.1] at h
          have h' := Option.some.inj h
          injection h' with h1 h2
          subst h1
          subst h2
          have hVf := toSqlPrimitiveParam_facts value (off + 1)
          have hc := extract_comparison (QAst.stringGetter id off).1 op.sqlSymbol
            (value.toSqlPrimitiveParam (off + 1)).1 off (off + 1) hif.1 hif.2.2 hVf.1
            hVf.2.2 (sqlSymbol_extract op) (sqlSymbol_head op)
          refine ⟨?_, hc.2⟩
          rw [hc.1, List.length_append, hif.2.1, hVf.2.1, range'_two]
      | json =>
          have hif := jsonGetter_facts id off
          simp only [QAst.toSqlQuery, hw] at h
          rw [hif.2.1] at h
          have h' := Option.some.inj h
          injection h' with h1 h2
          subst h1
          subst h2
          have hVf := toSqlJsonParam_facts value (off + 1)
          have hc := extract_comparison (QAst.jsonGetter id off).1 op.sqlSymbol
            (value.toSqlJsonParam (off + 1)).1 off (off + 1) hif.1 hif.2.2 hVf.1
            hVf.2.2 (sqlSymbol_extract op) (sqlSymbol_head op)
          refine ⟨?_, hc.2⟩
          rw [hc.1, List.length_append, hif.2.1, hVf.2.1, range'_two]
      | numeric =>
          have hif := numericGetter_facts id off
          simp only [QAst.toSqlQuery, hw] at h
          rw [hif.2.1] at h
          cases hV : value.toSqlNumericParam (off + 1) with
          | none =>
              rw [hV] at h
              exact Option.noConfusion h
          | some r =>
              obtain ⟨vs, vp⟩ := r
              have hVf := toSqlNumericParam_facts value (off + 1) (vs, vp) hV
              dsimp only at hVf
              rw [hV] at h
              have h' := Option.some.inj h
              injection h' with h1 h2
              subst h1
              subst h2
              have hc := extract_comparison (QAst.numericGetter id off).1 op.sqlSymbol vs
                off (off + 1) hif.1 hif.2.2 hVf.1 hVf.2.2 (sqlSymbol_extract op)
                (sqlSymbol_head op)
              refine ⟨?_, hc.2⟩
              rw [hc.1, List.length_append, hif.2.1, hVf.2.1, range'_two]
  | and lhs rhs ihl ihr =>
      intro off sql ps h
      simp only [QAst.toSqlQuery] at h
      cases hL : QAst.toSqlQuery lhs off with
      | none =>
          rw [hL] at h
          exact Option.noConfusion h
      | some l =>
          obtain ⟨ls, lp⟩ := l
          rw [hL] at h
          dsimp only at h
          cases hR : QAst.toSqlQuery rhs (off + lp.length) with
          | none =>
              rw [hR] at h
              dsimp only at h
              exact Option.noConfusion h
          | some r =>
              obtain ⟨rs, rp⟩ := r
              rw [hR] at h
              dsimp only at h
              have ihl' := ihl off ls lp hL
              have ihr' := ihr (off + lp.length) rs rp hR
              have h' := Option.some.inj h
              injection h' with h1 h2
              subst h1
              subst h2
              constructor
              · rw [extractPH_append _ _ (by decide : headNotDigit ")"),
                  extractPH_append _ _ ihr'.2,
                  extractPH_append _ _ (by decide : headNotDigit " AND "),
                  extractPH_append _ _ ihl'.2,
                  ihl'.1, ihr'.1,
                  show extractPH "(" = [] from by decide,
                  show extractPH " AND " = [] from by decide,
                  show extractPH ")" = [] from by decide]
                have hr := List.range'_append off lp.length rp.length 1
                rw [one_mul] at hr
                rw [List.length_append]
                simp only [List.nil_append, List.append_nil]
                rw [hr, Nat.add_comm rp.length lp.length]
              · exact headNotDigit_append _ _ (headNotDigit_append _ _
                  (headNotDigit_append _ _ (headNotDigit_append _ _ (by decide) ihl'.2)
                    (by decide)) ihr'.2) (by decide)
  | or lhs rhs ihl ihr =>
      intro off sql ps h
      simp only [QAst.toSqlQuery] at h
      cases hL : QAst.toSqlQuery lhs off with
      | none =>
          rw [hL] at h
          exact Option.noConfusion h
      | some l =>
          obtain ⟨ls, lp⟩ := l
          rw [hL] at h
          dsimp only at h
          cases hR : QAst.toSqlQuery rhs (off + lp.length) with
          | none =>
              rw [hR] at h
              dsimp only at h
              exact Option.noConfusion h
          | some r =>
              obtain ⟨rs, rp⟩ := r
              rw [hR] at h
              dsimp only at h
              have ihl' := ihl off ls lp hL
              have ihr' := ihr (off + lp.length) rs rp hR
              have h' := Option.some.inj h
              injection h' with h1 h2
              subst h1
              subst h2
              constructor
              · rw [extractPH_append _ _ (by decide : headNotDigit ")"),
                  extractPH_append _ _ ihr'.2,
                  extractPH_append _ _ (by decide : headNotDigit " OR "),
                  extractPH_append _ _ ihl'.2,
                  ihl'.1, ihr'.1,
                  show extractPH "(" = [] from by decide,
                  show extractPH " OR " = [] from by decide,
                  show extractPH ")" = [] from by decide]
                have hr := List.range'_append off lp.length rp.length 1
                rw [one_mul] at hr
                rw [List.length_append]
                simp only [List.nil_append, List.append_nil]
                rw [hr, Nat.add_comm rp.length lp.length]
              · exact headNotDigit_append _ _ (headNotDigit_append _ _
                  (headNotDigit_append _ _ (headNotDigit_append _ _ (by decide) ihl'.2)
                    (by decide)) ihr'.2) (by decide)
  | not e ih =>
      intro off sql ps h
      simp only [QAst.toSqlQuery] at h
      cases hE : QAst.toSqlQuery e off with
      | none =>
          rw [hE] at h
          dsimp only at h
          exact Option.noConfusion h
      | some l =>
          obtain ⟨ls, lp⟩ := l
          rw [hE] at h
          dsimp only at h
          have ih' := ih off ls lp hE
          have h' := Option.some.inj h
          injection h' with h1 h2
          subst h1
          subst h2
          constructor
          · rw [extractPH_append _ _ (by decide : headNotDigit ")"),
              extractPH_append _ _ ih'.2, ih'.1,
              show extractPH "(NOT " = [] from by decide,
              show extractPH ")" = [] from by decide]
            simp
          · exact headNotDigit_append _ _ (headNotDigit_append _ _ (by decide) ih'.2)
              (by decide)
  | fullTextSearch str =>
      intro off sql ps h
      simp only [QAst.toSqlQuery] at h
      have h' := Option.some.inj h
      injection h' with h1 h2
      subst h1
      subst h2
      constructor
      · show extractPH ("search @@ websearch_to_tsquery($" ++ natRepr off ++
          "::jsonb #>> '\x7b\x7d')") = List.range' off [Json.str str].length
        rw [show ([Json.str str] : List Json).length = 1 from rfl, List.range'_one]
        exact extractPH_psl "search @@ websearch_to_tsquery(" "::jsonb #>> '\x7b\x7d')" off
          (by decide) (by decide) (by decide)
      · exact headNotDigit_append_left _ _ (by
          rw [String.data_append]
          simp [show ("search @@ websearch_to_tsquery($" : String).data ≠ [] by decide])
          (headNotDigit_append_left _ _ (by decide) (by decide))

theorem walkTree_placeholders (e : LQuery.Expression) :
    ∀ off : Nat,
      extractPH (LQuery.walkTree e off).1 =
        List.range' off (LQuery.walkTree e off).2.length ∧
      headNotDigit (LQuery.walkTree e off).1 := by
  induction e with
  | compare lhs op rhs =>
      intro off
      rcases hL : LQuery.formatOperand lhs off (LQuery.primitiveOf op) with ⟨ls, lp⟩
      have hLf := formatOperand_facts lhs off (LQuery.primitiveOf op)
      rw [hL] at hLf
      dsimp only at hLf
      rcases hR : LQuery.formatOperand rhs (off + lp.length) (LQuery.primitiveOf op)
        with ⟨rs, rp⟩
      have hRf := formatOperand_facts rhs (off + lp.length) (LQuery.primitiveOf op)
      rw [hR] at hRf
      dsimp only at hRf
      have hwalk : LQuery.walkTree (.compare lhs op rhs) off =
          ((if LQuery.negateOf op then
              "NOT " ++ ls ++ " " ++ LQuery.symbolOf op ++ " " ++ rs
            else ls ++ " " ++ LQuery.symbolOf op ++ " " ++ rs), lp ++ rp) := by
        simp only [LQuery.walkTree, hL, hR]
      rw [hwalk]
      have hlen : (lp ++ rp).length = 2 := by
        rw [List.length_append, hLf.2.1, hRf.2.1]
      have hrs : extractPH rs = [off + 1] := by rw [hRf.1, hLf.2.1]
      have hpos : extractPH (ls ++ " " ++ LQuery.symbolOf op ++ " " ++ rs) =
          [off, off + 1] := by
        rw [extractPH_append _ _ hRf.2.2,
          extractPH_append _ _ (by decide : headNotDigit " "),
          extractPH_append _ _ (symbolOf_head op),
          extractPH_append _ _ (by decide : headNotDigit " "),
          hLf.1, hrs, symbolOf_extract op,
          show extractPH " " = [] from by decide]
        rfl
      by_cases hneg : LQuery.negateOf op
      · rw [if_pos hneg]
        constructor
        · rw [show ("NOT " ++ ls ++ " " ++ LQuery.symbolOf op ++ " " ++ rs : String) =
              "NOT " ++ (ls ++ " " ++ LQuery.symbolOf op ++ " " ++ rs) from by
                simp [String.append_assoc]]
          rw [extractPH_append _ _ (headNotDigit_append _ _ (headNotDigit_append _ _
            (headNotDigit_append _ _ (headNotDigit_append _ _ hLf.2.2 (by decide))
              (symbolOf_head op)) (by decide)) hRf.2.2)]
          rw [hpos, hlen, range'_two, show extractPH "NOT " = [] from by decide]
          rfl
        · exact headNotDigit_append _ _ (headNotDigit_append _ _ (headNotDigit_append _ _
            (headNotDigit_append _ _ (headNotDigit_append _ _ (by decide) hLf.2.2)
              (by decide)) (symbolOf_head op)) (by decide)) hRf.2.2
      · rw [if_neg hneg]
        refine ⟨?_, ?_⟩
        · rw [hpos, hlen, range'_two]
        · exact headNotDigit_append _ _ (headNotDigit_append _ _ (headNotDigit_append _ _
            (headNotDigit_append _ _ hLf.2.2 (by decide)) (symbolOf_head op))
              (by decide)) hRf.2.2
  | and lhs rhs ihl ihr =>
      intro off
      rcases hL : LQuery.walkTree lhs off with ⟨ls, lp⟩
      have ihl' := ihl off
      rw [hL] at ihl'
      dsimp only at ihl'
      rcases hR : LQuery.walkTree rhs (off + lp.length) with ⟨rs, rp⟩
      have ihr' := ihr (off + lp.length)
      rw [hR] at ihr'
      dsimp only at ihr'
      have hwalk : LQuery.walkTree (.and lhs rhs) off =
          ("(" ++ ls ++ " AND " ++ rs ++ ")", lp ++ rp) := by
        simp only [LQuery.walkTree, hL, hR]
      rw [hwalk]
      constructor
      · rw [extractPH_append _ _ (by decide : headNotDigit ")"),
          extractPH_append _ _ ihr'.2,
          extractPH_append _ _ (by decide : headNotDigit " AND "),
          extractPH_append _ _ ihl'.2,
          ihl'.1, ihr'.1,
          show extractPH "(" = [] from by decide,
          show extractPH " AND " = [] from by decide,
          show extractPH ")" = [] from by decide]
        have hr := List.range'_append off lp.length rp.length 1
        rw [one_mul] at hr
        rw [List.length_append]
        simp only [List.nil_append, List.append_nil]
        rw [hr, Nat.add_comm rp.length lp.length]
      · exact headNotDigit_append _ _ (headNotDigit_append _ _ (headNotDigit_append _ _
          (headNotDigit_append _ _ (by decide) ihl'.2) (by decide)) ihr'.2) (by decide)
  | or lhs rhs ihl ihr =>
      intro off
      rcases hL : LQuery.walkTree lhs off with ⟨ls, lp⟩
      have ihl' := ihl off
      rw [hL] at ihl'
      dsimp only at ihl'
      rcases hR : LQuery.walkTree rhs (off + lp.length) with ⟨rs, rp⟩
      have ihr' := ihr (off + lp.length)
      rw [hR] at ihr'
      dsimp only at ihr'
      have hwalk : LQuery.walkTree (.or lhs rhs) off =
          ("(" ++ ls ++ " OR " ++ rs ++ ")", lp ++ rp) := by
        simp only [LQuery.walkTree, hL, hR]
      rw [hwalk]
      constructor
      · rw [extractPH_append _ _ (by decide : headNotDigit ")"),
          extractPH_append _ _ ihr'.2,
          extractPH_append _ _ (by decide : headNotDigit " OR "),
          extractPH_append _ _ ihl'.2,
          ihl'.1, ihr'.1,
          show extractPH "(" = [] from by decide,
          show extractPH " OR " = [] from by decide,
          show extractPH ")" = [] from by decide]
        have hr := List.range'_append off lp.length rp.length 1
        rw [one_mul] at hr
        rw [List.length_append]
        simp only [List.nil_append, List.append_nil]
        rw [hr, Nat.add_comm rp.length lp.length]
      · exact headNotDigit_append _ _ (headNotDigit_append _ _ (headNotDigit_append _ _
          (headNotDigit_append _ _ (by decide) ihl'.2) (by decide)) ihr'.2) (by decide)
  | fts s =>
      intro off
      refine ⟨?_, ?_⟩
      · rw [show LQuery.walkTree (.fts s) off =
            ("search @@ websearch_to_tsquery($" ++ natRepr off ++
              "::jsonb #>> '\x7b\x7d')", [Json.str s]) from rfl]
        rw [show ("search @@ websearch_to_tsquery($" : String) =
            "search @@ websearch_to_tsquery(" ++ "$" from rfl]
        rw [extractPH_psl "search @@ websearch_to_tsquery(" "::jsonb #>> '\x7b\x7d')" off
          (by decide) (by decide) (by decide)]
        rfl
      · exact headNotDigit_append_left _ _ (by
          rw [String.data_append]
          simp [show ("search @@ websearch_to_tsquery($" : String).data ≠ [] by decide])
          (headNotDigit_append_left _ _ (by decide) (by decide))


/-- C4: for every expression tree and starting offset, the compiled
`(sql, params)` pair has exactly `params.length` placeholder occurrences in
`sql`, no index repeats, and the set of indices is exactly
`{offset, …, offset + params.length - 1}` with no gaps.  The first conjunct
covers `Expression::to_sql_query` of the query crate (whose result is `some`
unless it hits the `unreachable!()` for a list under a numeric operator); the
second covers `walk_tree` of `logstuff::query`, which is total. -/
theorem C4_placeholder_indices :
    (∀ (e : QAst.Expression) (off : Nat) (sql : String) (ps : List Json),
      QAst.toSqlQuery e off = some (sql, ps) →
      (extractPH sql).Nodup ∧
      (extractPH sql).length = ps.length ∧
      ∀ n, n ∈ extractPH sql ↔ off ≤ n ∧ n < off + ps.length) ∧
    (∀ (e : LQuery.Expression) (off : Nat),
      (extractPH (LQuery.walkTree e off).1).Nodup ∧
      (extractPH (LQuery.walkTree e off).1).length = (LQuery.walkTree e off).2.length ∧
      ∀ n, n ∈ extractPH (LQuery.walkTree e off).1 ↔
        off ≤ n ∧ n < off + (LQuery.walkTree e off).2.length) := by
  constructor
  · intro e off sql ps h
    rw [(toSqlQuery_placeholders e off sql ps h).1]
    refine ⟨List.nodup_range' off ps.length, List.length_range' .., ?_⟩
    intro n
    exact List.mem_range'_1
  · intro e off
    rw [(walkTree_placeholders e off).1]
    refine ⟨List.nodup_range' off (LQuery.walkTree e off).2.length, List.length_range' .., ?_⟩
    intro n
    exact List.mem_range'_1

/-- Witness for C4: the tree for `id = 1 or "x"` compiled at offset 1 by the
query crate; its SQL carries the placeholders `$1 $2 $3`, one per
parameter, gapless from the offset. -/
theorem C4_placeholder_indices_witness :
    QAst.toSqlQuery
        (.or (.compare "id" .eq (.scalar (.int 1))) (.fullTextSearch "x")) 1 =
      some ("(doc -> ($1::jsonb #>> '\x7b\x7d') @> $2 OR search @@ websearch_to_tsquery($3::jsonb #>> '\x7b\x7d'))",
        [Json.str "id", Json.num 1, Json.str "x"]) ∧
    ((extractPH "(doc -> ($1::jsonb #>> '\x7b\x7d') @> $2 OR search @@ websearch_to_tsquery($3::jsonb #>> '\x7b\x7d'))").Nodup ∧
      (extractPH "(doc -> ($1::jsonb #>> '\x7b\x7d') @> $2 OR search @@ websearch_to_tsquery($3::jsonb #>> '\x7b\x7d'))").length =
        [Json.str "id", Json.num 1, Json.str "x"].length ∧
      ∀ n, n ∈ extractPH "(doc -> ($1::jsonb #>> '\x7b\x7d') @> $2 OR search @@ websearch_to_tsquery($3::jsonb #>> '\x7b\x7d'))" ↔
        1 ≤ n ∧ n < 1 + [Json.str "id", Json.num 1, Json.str "x"].length) :=
  ⟨rfl, C4_placeholder_indices.1
    (.or (.compare "id" .eq (.scalar (.int 1))) (.fullTextSearch "x")) 1 _ _ rfl⟩


/-! ## C1: the compound event query's parameter layout -/

theorem eventsQuerySql_placeholders (table expr : String) (n : Nat) :
    extractPH (StreamApp.eventsQuerySql table expr n) =
      extractPH table ++ extractPH expr ++
        [StreamApp.startTstampParamId n, StreamApp.endTstampParamId n,
          StreamApp.eventLimitParamId n] := by
  unfold StreamApp.eventsQuerySql
  rw [show ("\n            and tstamp between $" : String) =
      "\n            and tstamp between " ++ "$" from rfl,
    show (" and $" : String) = " and " ++ "$" from rfl,
    show ("\n            order by tstamp desc\n            limit $" : String) =
      "\n            order by tstamp desc\n            limit " ++ "$" from rfl]
  simp only [String.append_assoc]
  rw [extractPH_append_lastSafe
      "\n            select jsonb_build_object('timestamp', tstamp, 'id', id, 'source', doc) as doc\n            from "
      _ (by decide),
    extractPH_append table _ (headNotDigit_append_left "\n            where " _
      (by decide) (by decide)),
    extractPH_append_lastSafe "\n            where " _ (by decide),
    extractPH_append expr _ (headNotDigit_append_left "\n            and tstamp between " _
      (by decide) (by decide)),
    extractPH_append "\n            and tstamp between " _ (headNotDigit_dollar _),
    extract_dollar_run _ _ (headNotDigit_append_left " and " _ (by decide) (by decide)),
    extractPH_append " and " _ (headNotDigit_dollar _),
    extract_dollar_run _ _ (headNotDigit_append_left
      "\n            order by tstamp desc\n            limit " _ (by decide) (by decide)),
    extractPH_append "\n            order by tstamp desc\n            limit " _
      (headNotDigit_dollar _),
    extract_dollar_run _ _ (by decide : headNotDigit "\n        ")]
  rw [show extractPH "\n            select jsonb_build_object('timestamp', tstamp, 'id', id, 'source', doc) as doc\n            from " = [] from by decide,
    show extractPH "\n            where " = [] from by decide,
    show extractPH "\n            and tstamp between " = [] from by decide,
    show extractPH " and " = [] from by decide,
    show extractPH "\n            order by tstamp desc\n            limit " = [] from by decide,
    show extractPH "\n        " = [] from by decide]
  simp

/-- C1: the compound query of `fetch_events` binds the first `N` parameter
slots (`N = len(expr_params)`) to the compiled expression's parameters, slot
`N+1` (`event_limit_param_id`) to `limit_events`, slot `N+2`
(`start_tstamp_param_id`) to `start` and slot `N+3` (`end_tstamp_param_id`)
to `end`; and the generated events sub-query references exactly those slots:
after the expression's own placeholders it uses `$N+2` and `$N+3` for the
time window and `$N+1` for its `LIMIT`.  Slot numbering is 1-based, so slot
`i` is list position `i - 1`. -/
theorem C1_compound_query_param_layout {α : Type}
    (queryParams : List α) (limitEvents start endv : α) (table expr : String) :
    (StreamApp.fetchEventsBoundParams queryParams limitEvents start endv).length =
      queryParams.length + 3 ∧
    (StreamApp.fetchEventsBoundParams queryParams limitEvents start endv).take
      queryParams.length = queryParams ∧
    (StreamApp.fetchEventsBoundParams queryParams limitEvents start endv)[
      StreamApp.eventLimitParamId queryParams.length - 1]? = some limitEvents ∧
    (StreamApp.fetchEventsBoundParams queryParams limitEvents start endv)[
      StreamApp.startTstampParamId queryParams.length - 1]? = some start ∧
    (StreamApp.fetchEventsBoundParams queryParams limitEvents start endv)[
      StreamApp.endTstampParamId queryParams.length - 1]? = some endv ∧
    extractPH (StreamApp.eventsQuerySql table expr queryParams.length) =
      extractPH table ++ extractPH expr ++
        [StreamApp.startTstampParamId queryParams.length,
          StreamApp.endTstampParamId queryParams.length,
          StreamApp.eventLimitParamId queryParams.length] := by
  have hflat : StreamApp.fetchEventsBoundParams queryParams limitEvents start endv =
      queryParams ++ [limitEvents, start, endv] := by
    simp [StreamApp.fetchEventsBoundParams]
  refine ⟨?_, ?_, ?_, ?_, ?_, eventsQuerySql_placeholders table expr queryParams.length⟩
  · rw [hflat, List.length_append]
    rfl
  · rw [hflat, List.take_left]
  · rw [hflat, StreamApp.eventLimitParamId, Nat.add_sub_cancel,
      List.getElem?_append_right (le_refl _), Nat.sub_self]
    rfl
  · rw [hflat, StreamApp.startTstampParamId,
      show queryParams.length + 2 - 1 = queryParams.length + 1 from by omega,
      List.getElem?_append_right (by omega), Nat.add_sub_cancel_left]
    rfl
  · rw [hflat, StreamApp.endTstampParamId,
      show queryParams.length + 3 - 1 = queryParams.length + 2 from by omega,
      List.getElem?_append_right (by omega), Nat.add_sub_cancel_left]
    rfl

/-- Witness for C1 with one compiled parameter, the `logs` table and the
trivial expression. -/
theorem C1_compound_query_param_layout_witness :
    (StreamApp.fetchEventsBoundParams [Json.str "id"] (Json.num 100) (Json.str "s")
      (Json.str "e")).length = 1 + 3 ∧
    (StreamApp.fetchEventsBoundParams [Json.str "id"] (Json.num 100) (Json.str "s")
      (Json.str "e")).take 1 = [Json.str "id"] ∧
    (StreamApp.fetchEventsBoundParams [Json.str "id"] (Json.num 100) (Json.str "s")
      (Json.str "e"))[StreamApp.eventLimitParamId 1 - 1]? = some (Json.num 100) ∧
    (StreamApp.fetchEventsBoundParams [Json.str "id"] (Json.num 100) (Json.str "s")
      (Json.str "e"))[StreamApp.startTstampParamId 1 - 1]? = some (Json.str "s") ∧
    (StreamApp.fetchEventsBoundParams [Json.str "id"] (Json.num 100) (Json.str "s")
      (Json.str "e"))[StreamApp.endTstampParamId 1 - 1]? = some (Json.str "e") ∧
    extractPH (StreamApp.eventsQuerySql "logs" "1 = 1" 1) =
      extractPH "logs" ++ extractPH "1 = 1" ++
        [StreamApp.startTstampParamId 1, StreamApp.endTstampParamId 1,
          StreamApp.eventLimitParamId 1] := by
  have h := C1_compound_query_param_layout [Json.str "id"] (Json.num 100) (Json.str "s")
    (Json.str "e") "logs" "1 = 1"
  simpa using h


/-! ## C6 and C8: document-key lemmas -/

theorem getKey_setKey_ne (j : Json) (key k : String) (v : Json) (h : k ≠ key) :
    (j.setKey key v).getKey k = j.getKey k := by
  cases j with
  | obj entries =>
      show Json.getKey.lookupEntry (Json.setKey.setEntry entries key v) k =
        Json.getKey.lookupEntry entries k
      induction entries with
      | nil => simp [Json.setKey.setEntry, Json.getKey.lookupEntry, h]
      | cons p rest ih =>
          obtain ⟨k0, v0⟩ := p
          by_cases hk : key = k0
          · subst hk
            simp [Json.setKey.setEntry, Json.getKey.lookupEntry, h]
          · simp [Json.setKey.setEntry, Json.getKey.lookupEntry, hk]
            by_cases hkk : k = k0
            · simp [hkk]
            · simp [hkk, ih]
  | null => simp [Json.setKey, Json.getKey, Json.getKey.lookupEntry, h]
  | bool b => rfl
  | num n => rfl
  | fnum b => rfl
  | str s => rfl
  | arr l => rfl

theorem getKey_setKey_eq (j : Json) (key : String) (v : Json)
    (h : j.isObj = true ∨ j = .null) :
    (j.setKey key v).getKey key = some v := by
  cases j with
  | obj entries =>
      clear h
      show Json.getKey.lookupEntry (Json.setKey.setEntry entries key v) key = some v
      induction entries with
      | nil => simp [Json.setKey.setEntry, Json.getKey.lookupEntry]
      | cons p rest ih =>
          obtain ⟨k0, v0⟩ := p
          by_cases hk : key = k0
          · subst hk
            simp [Json.setKey.setEntry, Json.getKey.lookupEntry]
          · simp [Json.setKey.setEntry, Json.getKey.lookupEntry, hk, ih]
  | null => simp [Json.setKey, Json.getKey, Json.getKey.lookupEntry]
  | bool b => simp [Json.isObj] at h
  | num n => simp [Json.isObj] at h
  | fnum b => simp [Json.isObj] at h
  | str s => simp [Json.isObj] at h
  | arr l => simp [Json.isObj] at h

theorem setKey_isObj (j : Json) (key : String) (v : Json) (h : j.isObj = true) :
    (j.setKey key v).isObj = true := by
  cases j <;> simp_all [Json.isObj, Json.setKey]

theorem flatten_preserve (n : Nat) :
    (∀ (v target : Json) (pfx sep : String), sizeOf v ≤ n →
      (∀ k, ¬ pfx.data <+: k.data →
        (EventModel.flattenValue v target pfx sep).getKey k = target.getKey k) ∧
      (target.isObj = true → (EventModel.flattenValue v target pfx sep).isObj = true)) ∧
    (∀ (l : List (String × Json)) (target : Json) (pfx sep : String), sizeOf l ≤ n →
      (∀ k, ¬ pfx.data <+: k.data →
        (EventModel.flattenEntries l target pfx sep).getKey k = target.getKey k) ∧
      (target.isObj = true → (EventModel.flattenEntries l target pfx sep).isObj = true)) := by
  induction n with
  | zero =>
      constructor
      · intro v _ _ _ hv
        cases v <;> simp at hv
      · intro l _ _ _ hl
        cases l with
        | nil =>
            refine ⟨fun k _ => ?_, fun h => ?_⟩ <;> rw [EventModel.flattenEntries]
            exact h
        | cons p rest => simp at hl
  | succ n ih =>
      have scalarCase : ∀ (w target : Json) (pfx : String),
          (∀ k, ¬ pfx.data <+: k.data →
            (target.setKey pfx w).getKey k = target.getKey k) ∧
          (target.isObj = true → (target.setKey pfx w).isObj = true) := by
        intro w target pfx
        refine ⟨fun k hk => getKey_setKey_ne target pfx k _ ?_, fun h =>
          setKey_isObj target pfx _ h⟩
        intro hkp
        subst hkp
        exact hk (List.prefix_refl _)
      constructor
      · intro v target pfx sep hv
        cases v with
        | obj entries =>
            rw [EventModel.flattenValue]
            refine ih.2 entries target pfx sep ?_
            have hs : sizeOf (Json.obj entries) = 1 + sizeOf entries := by simp
            omega
        | null => rw [EventModel.flattenValue]; exact scalarCase _ target pfx
        | bool b => rw [EventModel.flattenValue]; exact scalarCase _ target pfx
        | num m => rw [EventModel.flattenValue]; exact scalarCase _ target pfx
        | fnum b => rw [EventModel.flattenValue]; exact scalarCase _ target pfx
        | str s => rw [EventModel.flattenValue]; exact scalarCase _ target pfx
        | arr l => rw [EventModel.flattenValue]; exact scalarCase _ target pfx
      · intro l target pfx sep hl
        cases l with
        | nil =>
            refine ⟨fun k _ => ?_, fun h => ?_⟩ <;> rw [EventModel.flattenEntries]
            exact h
        | cons p rest =>
            obtain ⟨key, value⟩ := p
            rw [EventModel.flattenEntries]
            have hsv : sizeOf value ≤ n := by
              have h1 : sizeOf ((key, value) :: rest) =
                  1 + sizeOf (key, value) + sizeOf rest := by simp
              have h2 : sizeOf (key, value) = 1 + sizeOf key + sizeOf value := by simp
              omega
            have hsr : sizeOf rest ≤ n := by
              have h1 : sizeOf ((key, value) :: rest) =
                  1 + sizeOf (key, value) + sizeOf rest := by simp
              omega
            constructor
            · intro k hk
              have hpfxne : pfx.isEmpty = false := by
                cases hpe : pfx.isEmpty
                · rfl
                · exfalso
                  apply hk
                  rw [(String.isEmpty_iff pfx).mp hpe]
                  exact List.nil_prefix
              simp only [hpfxne, Bool.false_eq_true, if_false]
              have hpp : pfx.data <+: (pfx ++ sep ++ key).data := by
                rw [String.data_append, String.data_append, List.append_assoc]
                exact ⟨_, rfl⟩
              have hk' : ¬ (pfx ++ sep ++ key).data <+: k.data := fun hp => hk (hpp.trans hp)
              rw [(ih.2 rest _ pfx sep hsr).1 k hk,
                (ih.1 value target (pfx ++ sep ++ key) sep hsv).1 k hk']
            · intro hobj
              exact (ih.2 rest _ pfx sep hsr).2
                ((ih.1 value target _ sep hsv).2 hobj)



theorem flatten_getKey (v target : Json) (pfx sep k : String)
    (h : ¬ pfx.data <+: k.data) :
    (EventModel.flattenValue v target pfx sep).getKey k = target.getKey k :=
  ((flatten_preserve (sizeOf v)).1 v target pfx sep (le_refl _)).1 k h

theorem flatten_isObj (v target : Json) (pfx sep : String) (h : target.isObj = true) :
    (EventModel.flattenValue v target pfx sep).isObj = true :=
  ((flatten_preserve (sizeOf v)).1 v target pfx sep (le_refl _)).2 h

/-- C6 counterexample: a record with no optional fields at all still yields a
document that CONTAINS the key `procid` (bound to JSON `null`), because the
`json!` literal serializes the `Option` unconditionally; the claim says an
absent `procid` produces no key. -/
theorem C6_procid_counterexample :
    (EventModel.RsyslogdEvent.procid
      { msg := "m", rawmsg := "r", timereported := 0, timegenerated := 0,
        hostname := "h", syslogtag := "t", inputname := "i", fromhost := "f",
        fromhost_ip := "ip", pri := "13", syslogseverity := .notice,
        syslogfacility := .user, programname := "p", protocol_version := "1",
        structured_data := "-", app_name := "a", procid := none, msgid := none,
        uuid := none, message_variables := none }) = none ∧
    (EventModel.eventFromRsyslogd
      { msg := "m", rawmsg := "r", timereported := 0, timegenerated := 0,
        hostname := "h", syslogtag := "t", inputname := "i", fromhost := "f",
        fromhost_ip := "ip", pri := "13", syslogseverity := .notice,
        syslogfacility := .user, programname := "p", protocol_version := "1",
        structured_data := "-", app_name := "a", procid := none, msgid := none,
        uuid := none, message_variables := none }).doc.hasKey "procid" = true ∧
    (EventModel.eventFromRsyslogd
      { msg := "m", rawmsg := "r", timereported := 0, timegenerated := 0,
        hostname := "h", syslogtag := "t", inputname := "i", fromhost := "f",
        fromhost_ip := "ip", pri := "13", syslogseverity := .notice,
        syslogfacility := .user, programname := "p", protocol_version := "1",
        structured_data := "-", app_name := "a", procid := none, msgid := none,
        uuid := none, message_variables := none }).doc.getKey "procid" =
      some .null :=
  ⟨rfl, rfl, rfl⟩

/-- C6 amended: the keys `msgid` and `uuid` are present in the built document
exactly when the source record carried them; the key `procid` is always
present, and holds JSON `null` when the source record lacked `procid`. -/
theorem C6_optional_keys_amended (r : EventModel.RsyslogdEvent) :
    ((EventModel.eventFromRsyslogd r).doc.hasKey "msgid" = true ↔
      r.msgid.isSome = true) ∧
    ((EventModel.eventFromRsyslogd r).doc.hasKey "uuid" = true ↔
      r.uuid.isSome = true) ∧
    (EventModel.eventFromRsyslogd r).doc.hasKey "procid" = true ∧
    (r.procid = none →
      (EventModel.eventFromRsyslogd r).doc.getKey "procid" = some .null) := by
  have hb_obj : (EventModel.rsyslogBaseDoc r).isObj = true := rfl
  have hb_msgid : (EventModel.rsyslogBaseDoc r).getKey "msgid" = none := rfl
  have hb_uuid : (EventModel.rsyslogBaseDoc r).getKey "uuid" = none := rfl
  have hb_procid : (EventModel.rsyslogBaseDoc r).getKey "procid" =
      some (EventModel.optStrJson r.procid) := rfl
  -- facts about the document after the optional vars flattening
  obtain ⟨d1, hd1, h1_msgid, h1_uuid, h1_procid, h1_obj⟩ :
      ∃ d1, (match r.message_variables with
          | some vars => EventModel.flattenValue vars (EventModel.rsyslogBaseDoc r) "vars" "."
          | none => EventModel.rsyslogBaseDoc r) = d1 ∧
        d1.getKey "msgid" = none ∧ d1.getKey "uuid" = none ∧
        d1.getKey "procid" = some (EventModel.optStrJson r.procid) ∧
        d1.isObj = true := by
    cases hmv : r.message_variables with
    | none => exact ⟨_, rfl, hb_msgid, hb_uuid, hb_procid, hb_obj⟩
    | some vars =>
        refine ⟨_, rfl, ?_, ?_, ?_, flatten_isObj vars _ _ _ hb_obj⟩
        · rw [flatten_getKey vars _ _ _ _ (by decide), hb_msgid]
        · rw [flatten_getKey vars _ _ _ _ (by decide), hb_uuid]
        · rw [flatten_getKey vars _ _ _ _ (by decide), hb_procid]
  -- facts about the document after the optional msgid insertion
  obtain ⟨d2, hd2, h2_msgid, h2_uuid, h2_procid, h2_obj⟩ :
      ∃ d2, (match r.msgid with
          | some msgid => d1.setKey "msgid" (.str msgid)
          | none => d1) = d2 ∧
        (d2.hasKey "msgid" = r.msgid.isSome) ∧ d2.getKey "uuid" = none ∧
        d2.getKey "procid" = some (EventModel.optStrJson r.procid) ∧
        d2.isObj = true := by
    cases hmsg : r.msgid with
    | none =>
        exact ⟨_, rfl, by simp [Json.hasKey, h1_msgid], h1_uuid, h1_procid, h1_obj⟩
    | some m =>
        refine ⟨_, rfl, ?_, ?_, ?_, setKey_isObj _ _ _ h1_obj⟩
        · simp [Json.hasKey, getKey_setKey_eq d1 "msgid" (.str m) (Or.inl h1_obj)]
        · rw [getKey_setKey_ne _ _ _ _ (by decide), h1_uuid]
        · rw [getKey_setKey_ne _ _ _ _ (by decide), h1_procid]
  -- facts about the document after the optional uuid insertion
  obtain ⟨d3, hd3, h3_msgid, h3_uuid, h3_procid⟩ :
      ∃ d3, (match r.uuid with
          | some uuid => d2.setKey "uuid" (.str uuid)
          | none => d2) = d3 ∧
        (d3.hasKey "msgid" = r.msgid.isSome) ∧ (d3.hasKey "uuid" = r.uuid.isSome) ∧
        d3.getKey "procid" = some (EventModel.optStrJson r.procid) := by
    cases huuid : r.uuid with
    | none => exact ⟨_, rfl, h2_msgid, by simp [Json.hasKey, h2_uuid], h2_procid⟩
    | some u =>
        refine ⟨_, rfl, ?_, ?_, ?_⟩
        · rw [Json.hasKey, getKey_setKey_ne _ _ _ _ (by decide), ← Json.hasKey, h2_msgid]
        · simp [Json.hasKey, getKey_setKey_eq d2 "uuid" (.str u) (Or.inl h2_obj)]
        · rw [getKey_setKey_ne _ _ _ _ (by decide), h2_procid]
  have hdoc : (EventModel.eventFromRsyslogd r).doc = d3 := by
    simp only [EventModel.eventFromRsyslogd]
    rw [hd1, hd2, hd3]
  rw [hdoc]
  refine ⟨by rw [h3_msgid], by rw [h3_uuid], ?_, ?_⟩
  · rw [Json.hasKey, h3_procid]
    rfl
  · intro hnone
    rw [h3_procid, hnone]
    rfl

/-- Witness for C6 at a record that carries `msgid` but neither `uuid` nor
`procid`. -/
theorem C6_optional_keys_witness :
    ((EventModel.eventFromRsyslogd
      { msg := "m", rawmsg := "r", timereported := 5, timegenerated := 6,
        hostname := "h", syslogtag := "t", inputname := "i", fromhost := "f",
        fromhost_ip := "ip", pri := "13", syslogseverity := .info,
        syslogfacility := .daemon, programname := "p", protocol_version := "1",
        structured_data := "-", app_name := "a", procid := none,
        msgid := some "id1", uuid := none,
        message_variables := none }).doc.hasKey "msgid" = true ↔
      (some "id1" : Option String).isSome = true) ∧
    ((EventModel.eventFromRsyslogd
      { msg := "m", rawmsg := "r", timereported := 5, timegenerated := 6,
        hostname := "h", syslogtag := "t", inputname := "i", fromhost := "f",
        fromhost_ip := "ip", pri := "13", syslogseverity := .info,
        syslogfacility := .daemon, programname := "p", protocol_version := "1",
        structured_data := "-", app_name := "a", procid := none,
        msgid := some "id1", uuid := none,
        message_variables := none }).doc.hasKey "uuid" = true ↔
      (none : Option String).isSome = true) ∧
    (EventModel.eventFromRsyslogd
      { msg := "m", rawmsg := "r", timereported := 5, timegenerated := 6,
        hostname := "h", syslogtag := "t", inputname := "i", fromhost := "f",
        fromhost_ip := "ip", pri := "13", syslogseverity := .info,
        syslogfacility := .daemon, programname := "p", protocol_version := "1",
        structured_data := "-", app_name := "a", procid := none,
        msgid := some "id1", uuid := none,
        message_variables := none }).doc.hasKey "procid" = true ∧
    ((none : Option String) = none →
      (EventModel.eventFromRsyslogd
        { msg := "m", rawmsg := "r", timereported := 5, timegenerated := 6,
          hostname := "h", syslogtag := "t", inputname := "i", fromhost := "f",
          fromhost_ip := "ip", pri := "13", syslogseverity := .info,
          syslogfacility := .daemon, programname := "p", protocol_version := "1",
          structured_data := "-", app_name := "a", procid := none,
          msgid := some "id1", uuid := none,
          message_variables := none }).doc.getKey "procid" = some .null) :=
  C6_optional_keys_amended _


/-! ## C8: the use_vars_msg clone-and-swap -/

/-- C8 counterexample: with `doc = {"msg": "a", "vars.msg": 5}` the inserted
event's `msg` entry is the STRING `"5"` (the `get_printable` rendering of the
number), not the original `vars.msg` value `5`, so the two entries are not
exchanged as the claim states.  The embedding is pure, so the original event
value is untouched by construction. -/
theorem C8_swap_counterexample :
    ImportApp.insertedEvent true
        { timestamp := 0, doc := .obj [("msg", .str "a"), ("vars.msg", .num 5)] } =
      some { timestamp := 0, doc := .obj [("msg", .str "5"), ("vars.msg", .str "a")] } ∧
    Json.str "5" ≠ Json.num 5 :=
  ⟨rfl, fun h => Json.noConfusion h⟩

/-- C8 amended: when `use_vars_msg` is set and both `msg` and `vars.msg` are
string-valued entries of the document, the inserted event is the original
event with exactly those two entries exchanged — its timestamp and every
other key's value unchanged (the swap renders the entries through
`get_printable`, which is the identity on strings; non-string entries are
replaced by their rendering, as the counterexample shows). -/
theorem C8_swap_frame (ts : Int) (entries : List (String × Json)) (m v : String)
    (hm : Json.getKey (.obj entries) "msg" = some (.str m))
    (hv : Json.getKey (.obj entries) "vars.msg" = some (.str v)) :
    ∃ e', ImportApp.insertedEvent true { timestamp := ts, doc := .obj entries } = some e' ∧
      e'.timestamp = ts ∧
      ∀ k, e'.doc.getKey k =
        if k = "msg" then some (.str v)
        else if k = "vars.msg" then some (.str m)
        else Json.getKey (.obj entries) k := by
  have hpm : EventModel.getPrintable { timestamp := ts, doc := .obj entries } "msg" =
      some m := by
    simp only [EventModel.getPrintable]
    rw [hm]
  have hpv : EventModel.getPrintable { timestamp := ts, doc := .obj entries } "vars.msg" =
      some v := by
    simp only [EventModel.getPrintable]
    rw [hv]
  refine ⟨⟨ts, ((Json.obj entries).setKey "msg" (.str v)).setKey "vars.msg" (.str m)⟩,
    ?_, rfl, ?_⟩
  · simp only [ImportApp.insertedEvent]
    rw [if_pos ⟨trivial, by rw [hpv]; rfl⟩]
    rw [hpm, hpv]
    rfl
  · intro k
    by_cases hk1 : k = "msg"
    · subst hk1
      rw [if_pos rfl, getKey_setKey_ne _ _ _ _ (by decide : ("msg" : String) ≠ "vars.msg"),
        getKey_setKey_eq (Json.obj entries) "msg" (.str v) (Or.inl rfl)]
    · by_cases hk2 : k = "vars.msg"
      · subst hk2
        rw [if_neg (by decide : ¬ ("vars.msg" : String) = "msg"), if_pos rfl,
          getKey_setKey_eq ((Json.obj entries).setKey "msg" (.str v)) "vars.msg" (.str m)
            (Or.inl (setKey_isObj (Json.obj entries) "msg" (.str v) rfl))]
      · rw [if_neg hk1, if_neg hk2, getKey_setKey_ne _ _ _ _ hk2,
          getKey_setKey_ne _ _ _ _ hk1]

/-- Witness for C8 with both entries string-valued. -/
theorem C8_swap_frame_witness :
    Json.getKey (.obj [("msg", .str "hello"), ("vars.msg", .str "world")]) "msg" =
      some (.str "hello") ∧
    Json.getKey (.obj [("msg", .str "hello"), ("vars.msg", .str "world")]) "vars.msg" =
      some (.str "world") ∧
    ∃ e', ImportApp.insertedEvent true
        { timestamp := 7,
          doc := .obj [("msg", .str "hello"), ("vars.msg", .str "world")] } = some e' ∧
      e'.timestamp = 7 ∧
      ∀ k, e'.doc.getKey k =
        if k = "msg" then some (.str "world")
        else if k = "vars.msg" then some (.str "hello")
        else Json.getKey (.obj [("msg", .str "hello"), ("vars.msg", .str "world")]) k :=
  ⟨rfl, rfl, C8_swap_frame 7 [("msg", .str "hello"), ("vars.msg", .str "world")]
    "hello" "world" rfl rfl⟩

/-! ## C7: per-line stdout acknowledgments -/

/-- C7: a line that parses and whose insert succeeds writes exactly `OK\n`
to stdout; a line that fails to parse writes nothing and the handler returns
`Ok` (the read loop continues, the error is only logged); and whatever the
input, the process's stdout begins with the single startup `OK\n` emitted by
`App::new` before any line is handled. -/
theorem C7_per_line_acks :
    (∀ (parse : String → Except String EventModel.RsyslogdEvent)
        (insert : EventModel.Event → Except String Unit) (line : String)
        (r : EventModel.RsyslogdEvent),
      parse line = .ok r → insert (EventModel.eventFromRsyslogd r) = .ok () →
      ImportApp.handleEvent parse insert line = .ok ["OK\n"]) ∧
    (∀ (parse : String → Except String EventModel.RsyslogdEvent)
        (insert : EventModel.Event → Except String Unit) (line msg : String),
      parse line = .error msg →
      ImportApp.handleEvent parse insert line = .ok []) ∧
    (∀ (parse : String → Except String EventModel.RsyslogdEvent)
        (insert : EventModel.Event → Except String Unit)
        (lines outs : List String),
      ImportApp.appStdout parse insert lines = .ok outs →
      outs.head? = some "OK\n") := by
  refine ⟨?_, ?_, ?_⟩
  · intro parse insert line r hp hi
    simp [ImportApp.handleEvent, hp, hi]
    rfl
  · intro parse insert line msg hp
    simp [ImportApp.handleEvent, hp]
  · intro parse insert lines outs h
    cases hrl : ImportApp.runLoop parse insert lines with
    | error e =>
        rw [ImportApp.appStdout, hrl] at h
        exact Except.noConfusion h
    | ok o =>
        rw [ImportApp.appStdout, hrl] at h
        have h2 : ImportApp.appNewStdout ++ o = outs := Except.ok.inj h
        rw [← h2]
        rfl

/-- Witness for C7: a handler over a parse function that rejects the line
acknowledges nothing and continues. -/
theorem C7_per_line_acks_witness :
    ImportApp.handleEvent (fun _ => .error "bad json") (fun _ => .ok ()) "line" =
      .ok [] :=
  C7_per_line_acks.2.1 (fun _ => .error "bad json") (fun _ => .ok ()) "line"
    "bad json" rfl
